import Mathlib

/-!
BMPReader: a shallow embedding of `BinaryFileManager.h` and `BMPReader.h`.

The program targets Windows (`windows.h`), so the C++ integer types are taken
with their Windows widths: `int`, `long`, `LONG` are 32-bit signed, `unsigned int`,
`unsigned long`, `DWORD` are 32-bit unsigned, `WORD` and `unsigned short` are
16-bit unsigned.  Unsigned values are natural numbers reduced modulo `2^32`
wherever the C++ expression can wrap; signed values are integers.

`std::string` is a list of characters, the `char` buffer is a list of byte
values, and an access outside an array is the outcome `undefined`.
-/

set_option autoImplicit false

/-! ## Machine integers -/

/-- Conversion of an integer value to a 32-bit unsigned type. -/
def toU32 (z : Int) : Nat := (z % 4294967296).toNat

/-- Conversion of an integer value to a 32-bit signed type (two's complement). -/
def toI32 (z : Int) : Int := (z + 2147483648) % 4294967296 - 2147483648

/-- The C function `abs` on `int`; on the most negative value the two's
complement result is that value again. -/
def absInt (z : Int) : Int := toI32 (Int.ofNat z.natAbs)

/-! ## Outcomes of a member function -/

/-- How a call ends: it returns, it throws a string, or it performs an access
outside an array (undefined behaviour). The first two carry the state left. -/
inductive Outcome (σ : Type) where
  | returned (s : σ)
  | threw (msg : List Char) (s : σ)
  | undefined
  deriving DecidableEq, Repr

/-! ## BinaryFileManager.h -/

/-- A file of the operating system as `std::ifstream` sees it: its bytes, and
whether the device fails while they are read. -/
structure OsFile where
  bytes : List Nat
  readError : Bool
  deriving DecidableEq, Repr

/-- The files that can be opened for reading, by name. -/
abbrev FileSystem := List Char → Option OsFile

/-- The value `std::string::npos` (`size_t` of 64 bits). -/
def npos : Nat := 18446744073709551615

/-- The last index of `s` that holds `c`, if there is one. -/
def lastIndexOf (s : List Char) (c : Char) : Option Nat :=
  match s with
  | [] => none
  | a :: t =>
    match lastIndexOf t c with
    | some i => some (i + 1)
    | none => if a = c then some 0 else none

/-- The member `std::string::find_last_of(char)`: the last index holding `c`, or `npos`. -/
def find_last_of (s : List Char) (c : Char) : Nat :=
  match lastIndexOf s c with
  | some i => i
  | none => npos

/-- The member `std::string::substr(pos)`: the characters from `pos` on. The
library throws `std::out_of_range` when `pos` exceeds the size; `getExtension`, the
only caller, never passes such a position (`getExtension_pos_le`). -/
def substr (s : List Char) (pos : Nat) : List Char := s.drop pos

namespace BinaryFileManager

/-- State of a `BinaryFileManager`: the two constant strings and the stream,
which is either closed (`none`) or open on a file. -/
structure State where
  _filename : List Char
  _extension : List Char
  _file : Option OsFile
  deriving DecidableEq, Repr

/-- The static member `getExtension`: `filename.substr(filename.find_last_of(Char) + 1)`,
the addition being done in `size_t`. -/
def getExtension (filename : List Char) : List Char :=
  substr filename ((find_last_of filename '.' + 1) % 18446744073709551616)

/-- Opens the binary file. -/
def openFile (fs : FileSystem) (s : State) : Bool × State :=
  if s._file.isSome || s._extension != getExtension s._filename then
    (false, s)
  else
    match fs s._filename with
    | some f => (true, { s with _file := some f })
    | none => (false, s)

/-- Reads the contents of the binary file into a new buffer of
`static_cast<unsigned int>(fileSize)` bytes, from the start of the file (where
`getFileSize` leaves the stream). The result is `none` when the read stores beyond
that buffer. The bytes of the new buffer that the read does not deliver are
indeterminate in C++ and are zero here. -/
def readFile (s : State) (fileSize : Nat) (data : Option (List Nat)) :
    Option (Bool × Option (List Nat)) :=
  match s._file with
  | none => some (false, data)
  | some f =>
    if fileSize = 0 then some (false, data)
    else
      let capacity := fileSize % 4294967296
      if capacity < fileSize then none
      else if f.readError then some (false, some (List.replicate capacity 0))
      else
        let delivered := f.bytes.take fileSize
        some (decide (delivered.length = fileSize),
              some (delivered ++ List.replicate (capacity - delivered.length) 0))

/-- Closes the binary file. -/
def closeFile (s : State) : Bool × State :=
  if s._file.isSome then (true, { s with _file := none }) else (false, s)

/-- Retrieves the size of the binary file in bytes. -/
def getFileSize (s : State) (fileSize : Nat) : Bool × Nat :=
  match s._file with
  | none => (false, fileSize)
  | some f => (true, f.bytes.length)

end BinaryFileManager

/-! ## BMPReader.h -/

/-- Color item structure. -/
structure ColorSymbol where
  symbol : Char
  colors : Nat × Nat × Nat
  deriving DecidableEq, Repr

/-- Colors / Symbol: RGB. -/
def CONST_COLOR_STORE : List ColorSymbol :=
  [ ⟨'.', (255, 255, 255)⟩,
    ⟨'#', (0, 0, 0)⟩ ]

/-- Symbol for the error event. -/
def CONST_SYMBOL_ERROR : Char := '?'

/-- Color store size. -/
def CONST_COLOR_STORE_SIZE : Nat := CONST_COLOR_STORE.length

/-- Little-endian value of a sequence of bytes, as an unsigned number. -/
def leUnsigned (bs : List Nat) : Nat := bs.foldr (fun b acc => b + 256 * acc) 0

/-- Little-endian value of a sequence of bytes, as a two's complement number. -/
def leSigned (bs : List Nat) : Int :=
  if leUnsigned bs < 2 ^ (8 * bs.length - 1) then Int.ofNat (leUnsigned bs)
  else Int.ofNat (leUnsigned bs) - Int.ofNat (2 ^ (8 * bs.length))

/-- The bytes of field number `k` in the object representation `obj` of a
structure whose fields have the byte sizes `layout`, laid out without gaps. -/
def fieldBytes (layout : List Nat) (obj : List Nat) (k : Nat) : List Nat :=
  (obj.drop (layout.take k).sum).take (layout.getD k 0)

/-- The call `std::memcpy(dst, src + off, n)` seen from `dst`: the `n` bytes
copied, or `none` when the source buffer ends before `off + n`. -/
def memcpy (src : List Nat) (off n : Nat) : Option (List Nat) :=
  if off + n ≤ src.length then some ((src.drop off).take n) else none

/-- Modelled from the spec: the structure `BITMAPFILEHEADER` of `windows.h`, which
is not part of the repository: magic signature, total file size, two reserved
fields, offset to the start of pixel data. -/
structure BITMAPFILEHEADER where
  bfType : Nat
  bfSize : Nat
  bfReserved1 : Nat
  bfReserved2 : Nat
  bfOffBits : Nat
  deriving DecidableEq, Repr

/-- Modelled from the spec: the byte sizes of the fields of `BITMAPFILEHEADER`
(2-byte magic, 4-byte file size, 2+2 reserved bytes, 4-byte pixel-array offset). -/
def BITMAPFILEHEADER.layout : List Nat := [2, 4, 2, 2, 4]

/-- The value `sizeof(BITMAPFILEHEADER)`. -/
def BITMAPFILEHEADER.sizeof : Nat := BITMAPFILEHEADER.layout.sum

/-- The header whose object representation is `obj`. -/
def BITMAPFILEHEADER.ofBytes (obj : List Nat) : BITMAPFILEHEADER where
  bfType := leUnsigned (fieldBytes BITMAPFILEHEADER.layout obj 0)
  bfSize := leUnsigned (fieldBytes BITMAPFILEHEADER.layout obj 1)
  bfReserved1 := leUnsigned (fieldBytes BITMAPFILEHEADER.layout obj 2)
  bfReserved2 := leUnsigned (fieldBytes BITMAPFILEHEADER.layout obj 3)
  bfOffBits := leUnsigned (fieldBytes BITMAPFILEHEADER.layout obj 4)

/-- Modelled from the spec: the structure `BITMAPINFOHEADER` of `windows.h`, which
is not part of the repository: header size, signed width, signed height, planes,
bits-per-pixel, compression, image size, resolution fields, color-table sizes. -/
structure BITMAPINFOHEADER where
  biSize : Nat
  biWidth : Int
  biHeight : Int
  biPlanes : Nat
  biBitCount : Nat
  biCompression : Nat
  biSizeImage : Nat
  biXPelsPerMeter : Int
  biYPelsPerMeter : Int
  biClrUsed : Nat
  biClrImportant : Nat
  deriving DecidableEq, Repr

/-- Modelled from the spec: the byte sizes of the fields of `BITMAPINFOHEADER`
(4, 4 signed, 4 signed, 2, 2, 4, 4, 4+4, 4+4). -/
def BITMAPINFOHEADER.layout : List Nat := [4, 4, 4, 2, 2, 4, 4, 4, 4, 4, 4]

/-- The value `sizeof(BITMAPINFOHEADER)`. -/
def BITMAPINFOHEADER.sizeof : Nat := BITMAPINFOHEADER.layout.sum

/-- The header whose object representation is `obj`. -/
def BITMAPINFOHEADER.ofBytes (obj : List Nat) : BITMAPINFOHEADER where
  biSize := leUnsigned (fieldBytes BITMAPINFOHEADER.layout obj 0)
  biWidth := leSigned (fieldBytes BITMAPINFOHEADER.layout obj 1)
  biHeight := leSigned (fieldBytes BITMAPINFOHEADER.layout obj 2)
  biPlanes := leUnsigned (fieldBytes BITMAPINFOHEADER.layout obj 3)
  biBitCount := leUnsigned (fieldBytes BITMAPINFOHEADER.layout obj 4)
  biCompression := leUnsigned (fieldBytes BITMAPINFOHEADER.layout obj 5)
  biSizeImage := leUnsigned (fieldBytes BITMAPINFOHEADER.layout obj 6)
  biXPelsPerMeter := leSigned (fieldBytes BITMAPINFOHEADER.layout obj 7)
  biYPelsPerMeter := leSigned (fieldBytes BITMAPINFOHEADER.layout obj 8)
  biClrUsed := leUnsigned (fieldBytes BITMAPINFOHEADER.layout obj 9)
  biClrImportant := leUnsigned (fieldBytes BITMAPINFOHEADER.layout obj 10)

/-- The loop `for (i = 0; i < n; i++) body`, threading the state and stopping at
an undefined access. -/
def forLoop {σ : Type} (n : Nat) (body : Nat → σ → Option σ) (init : σ) : Option σ :=
  match n with
  | 0 => some init
  | k + 1 => (forLoop k body init).bind (body k)

namespace BMPReader

/-- Calculates the row padding required for a BMP image:
`(4 - (width * bytesPerPixel) % 4) % 4`, computed in `unsigned long` and returned
as `unsigned short`. -/
def _getRowPadding (width : Nat) (bytesPerPixel : Nat) : Nat :=
  toU32 (4 - Int.ofNat ((width * bytesPerPixel) % 4294967296 % 4)) % 4 % 65536

/-- Compares two 1-dimensional arrays of three entries. -/
def _arraysEqual1D (array1 array2 : Nat × Nat × Nat) : Bool :=
  array1.1 == array2.1 && array1.2.1 == array2.2.1 && array1.2.2 == array2.2.2

/-- The loop of `_findColorSymbol` from index `i` on, over the entries not yet
visited. -/
def findColorSymbolFrom (store : List ColorSymbol) (colors : Nat × Nat × Nat) : Char :=
  match store with
  | [] => CONST_SYMBOL_ERROR
  | e :: rest =>
    if _arraysEqual1D e.colors colors then e.symbol else findColorSymbolFrom rest colors

/-- Retrieves the color symbol equal to the given RGB color values. -/
def _findColorSymbol (colors : Nat × Nat × Nat) : Char :=
  findColorSymbolFrom CONST_COLOR_STORE colors

/-- State of a `BMPReader`: the base object, the buffer (`none` is `nullptr`), its
size and the two headers. -/
structure State extends BinaryFileManager.State where
  _data : Option (List Nat)
  _dataSize : Nat
  bmpHeader : BITMAPFILEHEADER
  bmpInfoHeader : BITMAPINFOHEADER
  deriving DecidableEq, Repr

/-- The constructor `BMPReader(filename)`: extension `bmp`, closed stream, null
buffer, size zero, value-initialised headers. -/
def new (filename : List Char) : State where
  _filename := filename
  _extension := String.toList "bmp"
  _file := none
  _data := none
  _dataSize := 0
  bmpHeader := ⟨0, 0, 0, 0, 0⟩
  bmpInfoHeader := ⟨0, 0, 0, 0, 0, 0, 0, 0, 0, 0, 0⟩

/-- The two `std::memcpy` calls that end `openBMP`, reading through `_data.get()`. -/
def copyHeaders (r : State) : Outcome State :=
  match r._data with
  | none => Outcome.undefined
  | some d =>
    match memcpy d 0 BITMAPFILEHEADER.sizeof,
          memcpy d BITMAPFILEHEADER.sizeof BITMAPINFOHEADER.sizeof with
    | some fh, some ih =>
      Outcome.returned { r with bmpHeader := BITMAPFILEHEADER.ofBytes fh,
                                bmpInfoHeader := BITMAPINFOHEADER.ofBytes ih }
    | _, _ => Outcome.undefined

/-- Opens a BMP file. -/
def openBMP (fs : FileSystem) (r : State) : Outcome State :=
  let o := BinaryFileManager.openFile fs r.toState
  let r1 : State := { r with toState := o.2 }
  if !o.1 then
    Outcome.threw (String.toList "InvalidOpenBMPFile: " ++ r1._filename) r1
  else
    let g := BinaryFileManager.getFileSize r1.toState r1._dataSize
    let r2 : State := { r1 with _dataSize := g.2 }
    if !g.1 then
      Outcome.threw (String.toList "InvalidGetFileSize: " ++ r2._filename)
        { r2 with toState := (BinaryFileManager.closeFile r2.toState).2 }
    else
      match BinaryFileManager.readFile r2.toState r2._dataSize r2._data with
      | none => Outcome.undefined
      | some (ok, data) =>
        let r3 : State := { r2 with _data := data }
        if !ok then
          Outcome.threw (String.toList "InvalidReadFile: " ++ r3._filename)
            { r3 with toState := (BinaryFileManager.closeFile r3.toState).2 }
        else
          let c := BinaryFileManager.closeFile r3.toState
          let r4 : State := { r3 with toState := c.2 }
          if !c.1 then
            Outcome.threw (String.toList "InvalidCloseFile: " ++ r4._filename) r4
          else
            copyHeaders r4

/-- The function-local `static const` variables of `displayBMP`. They belong to
the function (one set per instantiation of the template), not to a `BMPReader`:
every instance rendered in the process shares them. -/
structure DisplayStatics where
  height : Int
  heightAbs : Nat
  width : Nat
  bytesPerPixel : Nat
  rowPadded : Nat
  deriving DecidableEq, Repr

/-- The initialiser of `rowPadded`:
`((bmpInfoHeader.biWidth * bytesPerPixel) + 3) / 4 * 4` in `unsigned long`. -/
def rowPaddedInit (biWidth : Int) (bytesPerPixel : Nat) : Nat :=
  (toU32 biWidth * bytesPerPixel + 3) % 4294967296 / 4 * 4

/-- The initialisers of the `static const` variables, evaluated on the headers
of the instance on which `displayBMP` runs first. -/
def initStatics (ih : BITMAPINFOHEADER) : DisplayStatics :=
  let height : Int := toI32 ih.biHeight
  let heightAbs : Nat := toU32 (absInt height)
  let width : Nat := toU32 ih.biWidth
  let bytesPerPixel : Nat := toU32 (Int.ofNat (ih.biBitCount / 8))
  let rowPadded : Nat := rowPaddedInit ih.biWidth bytesPerPixel
  { height := height, heightAbs := heightAbs, width := width,
    bytesPerPixel := bytesPerPixel, rowPadded := rowPadded }

/-- The read `_data[i]` with an `int` index. -/
def readData (data : Option (List Nat)) (i : Int) : Option Nat :=
  match data with
  | none => none
  | some d => if i < 0 then none else d[i.toNat]?

/-- The read `v[k]` on a `std::vector`. -/
def readVector {α : Type} (v : List α) (k : Nat) : Option α := v[k]?

/-- The assignment `pixelsVector[row][col] = v` with an `int` row index. -/
def writePixel (pixelsVector : List (List Nat)) (row : Int) (col : Nat) (v : Nat) :
    Option (List (List Nat)) :=
  if row < 0 then none
  else
    match pixelsVector[row.toNat]? with
    | none => none
    | some cells =>
      if col < cells.length then some (pixelsVector.set row.toNat (cells.set col v))
      else none

/-- The value of `offsetRow` in iteration `y` of the outer parse loop. -/
def offsetRow (st : DisplayStatics) (y : Nat) : Int :=
  if st.height > 0 then toI32 (Int.ofNat (toU32 (Int.ofNat st.heightAbs - 1 - Int.ofNat y)))
  else toI32 (Int.ofNat y)

/-- The value of `offsetPixel` in iteration `(y, x)` of the parse loops. -/
def offsetPixel (st : DisplayStatics) (bfOffBits : Nat) (y x : Nat) : Int :=
  toI32 (Int.ofNat ((bfOffBits + y * st.rowPadded + x * st.bytesPerPixel) % 4294967296))

/-- Body of the inner parse loop: three reads from `_data`, three writes. -/
def fillPixel (st : DisplayStatics) (r : State) (y x : Nat)
    (pixelsVector : List (List Nat)) : Option (List (List Nat)) :=
  let p := offsetPixel st r.bmpHeader.bfOffBits y x
  (readData r._data p).bind fun color1 =>
  (readData r._data (toI32 (p + 1))).bind fun color2 =>
  (readData r._data (toI32 (p + 2))).bind fun color3 =>
  (writePixel pixelsVector (offsetRow st y) ((x * st.bytesPerPixel) % 4294967296) color1).bind
    fun pv1 =>
  (writePixel pv1 (offsetRow st y) ((x * st.bytesPerPixel + 1) % 4294967296) color2).bind
    fun pv2 =>
  writePixel pv2 (offsetRow st y) ((x * st.bytesPerPixel + 2) % 4294967296) color3

/-- The parse loops of `displayBMP`, from the freshly built `pixelsVector`. -/
def fillPixels (st : DisplayStatics) (r : State) : Option (List (List Nat)) :=
  forLoop st.heightAbs
    (fun y pv => forLoop st.width (fun x pv1 => fillPixel st r y x pv1) pv)
    (List.replicate st.heightAbs
      (List.replicate ((st.width * st.bytesPerPixel) % 4294967296) 0))

/-- Body of the inner output loop: three reads from `pixelsVector`, one symbol
appended to the stream. -/
def showPixel (st : DisplayStatics) (pixelsVector : List (List Nat)) (i j : Nat)
    (out : List Char) : Option (List Char) :=
  (readVector pixelsVector i).bind fun cells =>
  (readVector cells ((j * st.bytesPerPixel) % 4294967296)).bind fun blue =>
  (readVector cells ((j * st.bytesPerPixel + 1) % 4294967296)).bind fun green =>
  (readVector cells ((j * st.bytesPerPixel + 2) % 4294967296)).bind fun red =>
  some (out ++ [_findColorSymbol (red, green, blue)])

/-- The output loops of `displayBMP` and the final `std::endl`. -/
def showPixels (st : DisplayStatics) (pixelsVector : List (List Nat)) : Option (List Char) :=
  (forLoop st.heightAbs
    (fun i out =>
      (forLoop st.width (fun j out1 => showPixel st pixelsVector i j out1) out).map
        fun out2 => out2 ++ [Char.ofNat 10])
    []).map fun out => out ++ [Char.ofNat 10]

/-- The body of `displayBMP` below the declarations of the statics, whose values
are `st`: the parse loops, then the output loops. The result is the state of the
statics after the call and the text written to the stream. -/
def displayWith (st : DisplayStatics) (r : State) :
    Outcome (Option DisplayStatics × List Char) :=
  match (fillPixels st r).bind (showPixels st) with
  | some out => Outcome.returned (some st, out)
  | none => Outcome.undefined

/-- Displays BMP image. `statics` is the state of the function-local statics
before the call (`none`: this is the first call in the process, which
initialises them from the headers of `r`). -/
def displayBMP (statics : Option DisplayStatics) (r : State) :
    Outcome (Option DisplayStatics × List Char) :=
  displayWith (statics.getD (initStatics r.bmpInfoHeader)) r

/-- The member `closeBMP`: it calls `closeFile` and drops the result. -/
def closeBMP (r : State) : State :=
  { r with toState := (BinaryFileManager.closeFile r.toState).2 }

end BMPReader


/-! ## Vocabulary of the specification -/

/-- Byte `i` of a buffer (zero beyond its end). -/
def byteAt (d : List Nat) (i : Nat) : Nat := d.getD i 0

/-- Unsigned 16-bit little-endian number in bytes `off` and `off + 1`. -/
def u16At (d : List Nat) (off : Nat) : Nat := byteAt d off + 256 * byteAt d (off + 1)

/-- Unsigned 32-bit little-endian number in bytes `off` to `off + 3`. -/
def u32At (d : List Nat) (off : Nat) : Nat :=
  byteAt d off + 256 * byteAt d (off + 1) + 65536 * byteAt d (off + 2)
    + 16777216 * byteAt d (off + 3)

/-- Signed 32-bit little-endian number in bytes `off` to `off + 3`. -/
def s32At (d : List Nat) (off : Nat) : Int :=
  if u32At d off < 2147483648 then Int.ofNat (u32At d off)
  else Int.ofNat (u32At d off) - 4294967296

/-- Row stride as the claims write it: `((width * bytesPerPixel) + 3) / 4 * 4`. -/
def strideOf (width bytesPerPixel : Nat) : Nat := (width * bytesPerPixel + 3) / 4 * 4

/-- The stored file row that output row `y` shows: `abs(height) - 1 - y` for a
positive height (bottom-up storage), `y` otherwise. -/
def fileRowOf (height : Int) (y : Nat) : Nat :=
  if height > 0 then height.natAbs - 1 - y else y

/-- The 24-bit pixels of stored file row `k`: the `3 * width` bytes from offset
`bfOffBits + k * stride`. -/
def storedRow (d : List Nat) (bfOffBits stride width k : Nat) : List Nat :=
  (d.drop (bfOffBits + k * stride)).take (3 * width)

/-- The symbol of the pixel whose three bytes Blue, Green, Red start at offset `p`. -/
def symbolAt (d : List Nat) (p : Nat) : Char :=
  BMPReader._findColorSymbol (byteAt d (p + 2), byteAt d (p + 1), byteAt d p)

/-- The lines of a text, each ended by a line break. -/
def splitLines (text : List Char) : List (List Char) :=
  match text with
  | [] => []
  | c :: t =>
    if c = Char.ofNat 10 then [] :: splitLines t
    else
      match splitLines t with
      | [] => [[c]]
      | l :: ls => (c :: l) :: ls

/-- The text of a grid of symbols: every row followed by a line break, then one
more line break. -/
def gridText (rows : List (List Char)) : List Char :=
  (rows.map fun row => row ++ [Char.ofNat 10]).flatten ++ [Char.ofNat 10]

/-- The stored row that lands in row `ρ` of `pixelsVector`, in terms of the
statics. -/
def rowSource (st : BMPReader.DisplayStatics) (ρ : Nat) : Nat :=
  if st.height > 0 then st.heightAbs - 1 - ρ else ρ

/-- The value of `pixelsVector` of a 24-bit image once the outer parse loop has
handled the stored rows below `k`: those rows are in place, the others are zero. -/
def parsedAfter (st : BMPReader.DisplayStatics) (d : List Nat) (bfOffBits k : Nat) :
    List (List Nat) :=
  (List.range st.heightAbs).map fun ρ =>
    if rowSource st ρ < k then
      (d.drop (bfOffBits + rowSource st ρ * st.rowPadded)).take (3 * st.width)
    else List.replicate (3 * st.width) 0

/-- The symbols of the `width` pixels of 3 bytes that start at offset `base`. -/
def rowSymbols (d : List Nat) (base width : Nat) : List Char :=
  (List.range width).map fun x => symbolAt d (base + 3 * x)

/-- The rows of symbols of a 24-bit image, top row first, in terms of the
statics. -/
def renderedRows (st : BMPReader.DisplayStatics) (d : List Nat) (bfOffBits : Nat) :
    List (List Char) :=
  (List.range st.heightAbs).map fun y =>
    rowSymbols d (bfOffBits + rowSource st y * st.rowPadded) st.width

/-- A loaded 24-bit image as the claims on `displayBMP` take it: a buffer `d`,
24 bits per pixel, a width that is not negative, a height within `LONG`, the
pixel array `bfOffBits + abs(height) * stride` inside the buffer, and a buffer of
at most `2^31` bytes, so that every `int offsetPixel` holds its offset. -/
structure Valid24 (r : BMPReader.State) (d : List Nat) : Prop where
  data : r._data = some d
  bits : r.bmpInfoHeader.biBitCount = 24
  width_nonneg : 0 ≤ r.bmpInfoHeader.biWidth
  height_min : -2147483648 ≤ r.bmpInfoHeader.biHeight
  height_max : r.bmpInfoHeader.biHeight < 2147483648
  fits : r.bmpHeader.bfOffBits
      + r.bmpInfoHeader.biHeight.natAbs * strideOf r.bmpInfoHeader.biWidth.toNat 3 ≤ d.length
  small : d.length ≤ 2147483648

/-- The vector `pixelsVector` has `rows` rows of `cols` cells each. -/
def HasShape (pv : List (List Nat)) (rows cols : Nat) : Prop :=
  pv.length = rows ∧ ∀ i, i < rows → ∃ cells, pv[i]? = some cells ∧ cells.length = cols

/-! ## Sample inputs -/

/-- Bytes of a bitmap file: 54 bytes of headers for an image of the given bits
per pixel, width and height (two's complement bytes `hb`), followed by the pixel
rows. -/
def bmpFileBits (bits width : Nat) (hb : List Nat) (pixels : List Nat) : List Nat :=
  [66, 77, 54 + pixels.length, 0, 0, 0, 0, 0, 0, 0, 54, 0, 0, 0,
   40, 0, 0, 0, width, 0, 0, 0] ++ hb ++
  [1, 0, bits, 0, 0, 0, 0, 0, pixels.length, 0, 0, 0, 0, 0, 0, 0, 0, 0, 0, 0,
   0, 0, 0, 0, 0, 0, 0, 0] ++ pixels

/-- Bytes of a 24-bit bitmap file. -/
def bmpFile (width : Nat) (hb : List Nat) (pixels : List Nat) : List Nat :=
  bmpFileBits 24 width hb pixels

/-- A file system in which every name opens on the file `bytes`. -/
def oneFile (bytes : List Nat) : FileSystem := fun _ => some ⟨bytes, false⟩

/-- One white pixel. -/
def whitePixelFile : List Nat := bmpFile 1 [1, 0, 0, 0] [255, 255, 255, 0]

/-- The reader state in which a buffer and its headers are loaded. -/
def loaded (filename : List Char) (d : List Nat) (fh : BITMAPFILEHEADER)
    (ih : BITMAPINFOHEADER) : BMPReader.State :=
  { BMPReader.new filename with
    _data := some d, _dataSize := d.length, bmpHeader := fh, bmpInfoHeader := ih }

/-- The state after `a.bmp`, holding one white pixel, is opened. -/
def whitePixelLoaded : BMPReader.State :=
  loaded (String.toList "a.bmp") whitePixelFile ⟨19778, 58, 0, 0, 54⟩
    ⟨40, 1, 1, 1, 24, 0, 4, 0, 0, 0, 0⟩

/-- Two stored rows of one pixel each: the first red, the second blue (bytes
Blue, Green, Red and one byte of padding per row). -/
def redThenBlue : List Nat := [0, 0, 255, 0, 255, 0, 0, 0]

/-- The loaded state of a 1-pixel-wide image of height `+2` (bottom-up) whose
first stored row is red and second stored row is blue. -/
def redBlueUp : BMPReader.State :=
  loaded (String.toList "a.bmp") (bmpFile 1 [2, 0, 0, 0] redThenBlue) ⟨19778, 62, 0, 0, 54⟩
    ⟨40, 1, 2, 1, 24, 0, 8, 0, 0, 0, 0⟩

/-- The loaded state of a 1-pixel-wide image of height `-2` (top-down) with the
same stored rows. -/
def redBlueDown : BMPReader.State :=
  loaded (String.toList "a.bmp") (bmpFile 1 [254, 255, 255, 255] redThenBlue)
    ⟨19778, 62, 0, 0, 54⟩ ⟨40, 1, -2, 1, 24, 0, 8, 0, 0, 0, 0⟩

/-- One black pixel. -/
def blackPixelFile : List Nat := bmpFile 1 [1, 0, 0, 0] [0, 0, 0, 0]

/-- The state after `a.bmp`, holding one black pixel, is opened. -/
def blackPixelLoaded : BMPReader.State :=
  loaded (String.toList "a.bmp") blackPixelFile ⟨19778, 58, 0, 0, 54⟩
    ⟨40, 1, 1, 1, 24, 0, 4, 0, 0, 0, 0⟩

/-- A file system in which every name opens on a device that fails while the 58
bytes of the file are read. -/
def failingDevice : FileSystem := fun _ => some ⟨whitePixelFile, true⟩

/-- A file of a 1x1 image of 8 bits per pixel (one byte per pixel): the headers,
then one padded row. -/
def eightBitFile : List Nat := bmpFileBits 8 1 [1, 0, 0, 0] [7, 0, 0, 0]

/-- The state after `a.bmp`, holding `eightBitFile`, is opened. -/
def eightBitLoaded : BMPReader.State :=
  loaded (String.toList "a.bmp") eightBitFile ⟨19778, 58, 0, 0, 54⟩
    ⟨40, 1, 1, 1, 8, 0, 4, 0, 0, 0, 0⟩

/-! ## Theorems -/

section Extension

theorem lastIndexOf_lt (s : List Char) (c : Char) (i : Nat)
    (h : lastIndexOf s c = some i) : i < s.length := by
  induction s generalizing i with
  | nil => simp [lastIndexOf] at h
  | cons a t ih =>
    simp only [lastIndexOf] at h
    cases hr : lastIndexOf t c with
    | some k =>
      rw [hr] at h
      have hk := ih k hr
      simp only [Option.some.injEq] at h
      simp only [List.length_cons]
      omega
    | none =>
      rw [hr] at h
      by_cases hac : a = c
      · simp only [hac, if_true, Option.some.injEq] at h
        simp only [List.length_cons]
        omega
      · simp [hac] at h

theorem lastIndexOf_none (s : List Char) (c : Char) (h : c ∉ s) :
    lastIndexOf s c = none := by
  induction s with
  | nil => rfl
  | cons a t ih =>
    simp only [List.mem_cons, not_or] at h
    simp only [lastIndexOf, ih h.2]
    have : ¬ a = c := fun e => h.1 e.symm
    simp [this]

/-- The position handed to `substr` never exceeds the size of the string. -/
theorem getExtension_pos_le (s : List Char) :
    (find_last_of s '.' + 1) % 18446744073709551616 ≤ s.length := by
  unfold find_last_of
  cases h : lastIndexOf s '.' with
  | none => simp [npos]
  | some i =>
    have := lastIndexOf_lt s '.' i h
    have := Nat.mod_le (i + 1) 18446744073709551616
    simp only
    omega

/-- A filename without a dot is returned whole. -/
theorem getExtension_of_no_dot (s : List Char) (h : '.' ∉ s) :
    BinaryFileManager.getExtension s = s := by
  unfold BinaryFileManager.getExtension find_last_of
  rw [lastIndexOf_none s '.' h]
  simp [npos, substr]

/-- C8 (the code at a failing input): for the path `image`, which contains no
dot, `getExtension` yields the whole path `image` and not the empty string, while
for `a.b.png` it yields `png`, the substring after the last dot. -/
theorem getExtension_no_dot_whole :
    BinaryFileManager.getExtension (String.toList "image") = String.toList "image" ∧
    BinaryFileManager.getExtension (String.toList "image") ≠ [] ∧
    BinaryFileManager.getExtension (String.toList "a.b.png") = String.toList "png" := by
  decide

end Extension

section ColorSymbol

theorem findColorSymbol_cases (r g b : Nat) :
    BMPReader._findColorSymbol (r, g, b) =
      if (r, g, b) = (255, 255, 255) then '.'
      else if (r, g, b) = (0, 0, 0) then '#' else '?' := by
  simp only [BMPReader._findColorSymbol, CONST_COLOR_STORE, BMPReader.findColorSymbolFrom,
    BMPReader._arraysEqual1D, CONST_SYMBOL_ERROR, Prod.mk.injEq]
  simp only [Bool.and_eq_true, beq_iff_eq]
  split_ifs <;> first | rfl | (exfalso; omega)

theorem findColorSymbol_ne_newline (c : Nat × Nat × Nat) :
    BMPReader._findColorSymbol c ≠ Char.ofNat 10 := by
  obtain ⟨r, g, b⟩ := c
  rw [findColorSymbol_cases]
  split_ifs <;> decide

/-- C6: `_findColorSymbol` answers the white symbol exactly on (255,255,255), the
black symbol exactly on (0,0,0), and the fallback symbol on every other triple,
such as (10,20,30). -/
theorem findColorSymbol_exact (r g b : Nat) :
    (BMPReader._findColorSymbol (r, g, b) = '.' ↔ (r, g, b) = (255, 255, 255)) ∧
    (BMPReader._findColorSymbol (r, g, b) = '#' ↔ (r, g, b) = (0, 0, 0)) ∧
    (BMPReader._findColorSymbol (r, g, b) = '?' ↔
      ((r, g, b) ≠ (255, 255, 255) ∧ (r, g, b) ≠ (0, 0, 0))) ∧
    BMPReader._findColorSymbol (10, 20, 30) = '?' := by
  have key := findColorSymbol_cases r g b
  refine ⟨?_, ?_, ?_, by decide⟩ <;> rw [key] <;> split_ifs with h1 h2 <;>
    simp only [Prod.mk.injEq, ne_eq] at * <;> simp <;> omega

end ColorSymbol

section MachineIntegers

theorem toU32_of_lt (z : Int) (h0 : 0 ≤ z) (h1 : z < 4294967296) : toU32 z = z.toNat := by
  unfold toU32
  rw [Int.emod_eq_of_lt h0 h1]

theorem toU32_ofNat (n : Nat) (h : n < 4294967296) : toU32 (Int.ofNat n) = n := by
  unfold toU32
  simp only [Int.ofNat_eq_coe]
  omega

theorem toI32_of_range (z : Int) (h0 : -2147483648 ≤ z) (h1 : z < 2147483648) :
    toI32 z = z := by
  unfold toI32
  rw [Int.emod_eq_of_lt (by omega) (by omega)]
  omega

theorem heightAbs_eq (h : Int) (h0 : -2147483648 ≤ h) (h1 : h < 2147483648) :
    toU32 (absInt (toI32 h)) = h.natAbs := by
  rw [toI32_of_range h h0 h1]
  unfold absInt toU32 toI32
  simp only [Int.ofNat_eq_coe]
  omega

theorem ceil_quarter (a : Nat) : ⌈((a : ℕ) : ℚ) / 4⌉₊ = (a + 3) / 4 := by
  rcases Nat.eq_zero_or_pos a with h | h
  · subst h; simp
  · have hq : (a + 3) / 4 ≠ 0 := by omega
    rw [Nat.ceil_eq_iff hq]
    constructor
    · rw [lt_div_iff₀ (by norm_num)]
      have : ((a + 3) / 4 - 1) * 4 < a := by omega
      exact_mod_cast this
    · rw [div_le_iff₀ (by norm_num)]
      have : a ≤ (a + 3) / 4 * 4 := by omega
      exact_mod_cast this

theorem rowPaddedInit_eq (w : Int) (bpp : Nat) (hw : 0 ≤ w)
    (hov : w.toNat * bpp + 3 < 4294967296) :
    BMPReader.rowPaddedInit w bpp = (w.toNat * bpp + 3) / 4 * 4 := by
  unfold BMPReader.rowPaddedInit
  rcases Nat.eq_zero_or_pos bpp with hb | hb
  · subst hb; simp
  · have hle : w.toNat ≤ w.toNat * bpp := Nat.le_mul_of_pos_right _ hb
    have hwlt : w < 4294967296 := by omega
    rw [toU32_of_lt w hw hwlt, Nat.mod_eq_of_lt hov]

/-- C5: absent overflow, the stride that `displayBMP` computes is
`ceil(width * bytesPerPixel / 4) * 4`, the least multiple of 4 that is at least
`width * bytesPerPixel`; for width 3 and 3 bytes per pixel it is 12, and column 2
of file row `row` is read at `bfOffBits + row * 12 + 6`. -/
theorem rowPadded_least_multiple (w : Int) (bpp : Nat) (bfOffBits row : Nat)
    (ih : BITMAPINFOHEADER) (hw : 0 ≤ w) (hov : w.toNat * bpp + 3 < 4294967296)
    (hw3 : ih.biWidth = 3) (hb : ih.biBitCount = 24)
    (hoff : bfOffBits + row * 12 + 6 < 2147483648) :
    BMPReader.rowPaddedInit w bpp = ⌈((w.toNat * bpp : ℕ) : ℚ) / 4⌉₊ * 4 ∧
    IsLeast {m : ℕ | 4 ∣ m ∧ w.toNat * bpp ≤ m} (BMPReader.rowPaddedInit w bpp) ∧
    BMPReader.rowPaddedInit 3 3 = 12 ∧
    (BMPReader.initStatics ih).rowPadded = 12 ∧
    (BMPReader.initStatics ih).bytesPerPixel = 3 ∧
    BMPReader.offsetPixel (BMPReader.initStatics ih) bfOffBits row 2 =
      Int.ofNat (bfOffBits + row * 12 + 6) := by
  have hrow : (BMPReader.initStatics ih).rowPadded = 12 := by
    simp only [BMPReader.initStatics, hw3, hb]; decide
  have hbpp : (BMPReader.initStatics ih).bytesPerPixel = 3 := by
    simp only [BMPReader.initStatics, hb]; decide
  refine ⟨?_, ?_, by decide, hrow, hbpp, ?_⟩
  · rw [ceil_quarter, rowPaddedInit_eq w bpp hw hov]
  · rw [rowPaddedInit_eq w bpp hw hov]
    constructor
    · exact ⟨Nat.dvd_mul_left 4 _, by omega⟩
    · rintro m ⟨hdvd, hle⟩
      obtain ⟨k, rfl⟩ := hdvd
      omega
  · unfold BMPReader.offsetPixel
    rw [hrow, hbpp, Nat.mod_eq_of_lt (by omega)]
    simp only [Int.ofNat_eq_coe]
    apply toI32_of_range <;> omega

/-- C5 at width 3, 3 bytes per pixel, pixel data at offset 54, file row 1. -/
theorem rowPadded_least_multiple_witness :
    BMPReader.rowPaddedInit 3 3 = ⌈((Int.toNat 3 * 3 : ℕ) : ℚ) / 4⌉₊ * 4 ∧
    IsLeast {m : ℕ | 4 ∣ m ∧ Int.toNat 3 * 3 ≤ m} (BMPReader.rowPaddedInit 3 3) ∧
    BMPReader.rowPaddedInit 3 3 = 12 ∧
    (BMPReader.initStatics ⟨40, 3, 2, 1, 24, 0, 0, 0, 0, 0, 0⟩).rowPadded = 12 ∧
    (BMPReader.initStatics ⟨40, 3, 2, 1, 24, 0, 0, 0, 0, 0, 0⟩).bytesPerPixel = 3 ∧
    BMPReader.offsetPixel (BMPReader.initStatics ⟨40, 3, 2, 1, 24, 0, 0, 0, 0, 0, 0⟩) 54 1 2 =
      Int.ofNat (54 + 1 * 12 + 6) :=
  rowPadded_least_multiple 3 3 54 1 ⟨40, 3, 2, 1, 24, 0, 0, 0, 0, 0, 0⟩
    (by decide) (by decide) rfl rfl (by decide)

end MachineIntegers

section OpenBMP

/-- C9: when the extension of the path differs from the configured extension
`bmp`, `openFile` returns false and leaves the stream closed or as it was, and
`openBMP` throws `InvalidOpenBMPFile` with the whole state (buffer, size, headers)
untouched, whatever the file system contains. -/
theorem openBMP_extension_mismatch (fs : FileSystem) (r : BMPReader.State)
    (hcfg : r._extension = String.toList "bmp")
    (hext : BinaryFileManager.getExtension r._filename ≠ String.toList "bmp") :
    BinaryFileManager.openFile fs r.toState = (false, r.toState) ∧
    BMPReader.openBMP fs r =
      Outcome.threw (String.toList "InvalidOpenBMPFile: " ++ r._filename) r := by
  have hne : (r._extension != BinaryFileManager.getExtension r._filename) = true := by
    rw [hcfg]
    simp only [bne_iff_ne, ne_eq]
    exact fun h => hext h.symm
  have hopen : BinaryFileManager.openFile fs r.toState = (false, r.toState) := by
    unfold BinaryFileManager.openFile
    rw [hne, Bool.or_true, if_pos rfl]
  refine ⟨hopen, ?_⟩
  unfold BMPReader.openBMP
  simp only [hopen, Bool.not_false, if_true]

/-- C9 on the path `a.png`, with a file system in which every name opens. -/
theorem openBMP_extension_mismatch_witness :
    BinaryFileManager.openFile (fun _ => some ⟨List.replicate 60 0, false⟩)
        (BMPReader.new (String.toList "a.png")).toState
      = (false, (BMPReader.new (String.toList "a.png")).toState) ∧
    BMPReader.openBMP (fun _ => some ⟨List.replicate 60 0, false⟩)
        (BMPReader.new (String.toList "a.png"))
      = Outcome.threw
          (String.toList "InvalidOpenBMPFile: " ++ (BMPReader.new (String.toList "a.png"))._filename)
          (BMPReader.new (String.toList "a.png")) :=
  openBMP_extension_mismatch (fun _ => some ⟨List.replicate 60 0, false⟩)
    (BMPReader.new (String.toList "a.png")) rfl (by decide)

theorem getD_drop_add (d : List Nat) (off i : Nat) :
    (d.drop off).getD i 0 = d.getD (off + i) 0 := by
  simp [List.getD_eq_getElem?_getD, List.getElem?_drop]

theorem leUnsigned_take4 (d : List Nat) (off : Nat) (h : off + 4 ≤ d.length) :
    leUnsigned ((d.drop off).take 4) = u32At d off := by
  have hl : 4 ≤ (d.drop off).length := by simp; omega
  unfold u32At byteAt
  rw [← Nat.add_zero off, ← getD_drop_add, ← getD_drop_add, ← getD_drop_add, ← getD_drop_add]
  simp only [Nat.add_zero]
  rcases hd : d.drop off with _ | ⟨a, _ | ⟨b, _ | ⟨c, _ | ⟨e, t⟩⟩⟩⟩ <;> rw [hd] at hl <;>
    simp at hl
  simp [leUnsigned]
  ring

theorem leUnsigned_take2 (d : List Nat) (off : Nat) (h : off + 2 ≤ d.length) :
    leUnsigned ((d.drop off).take 2) = u16At d off := by
  have hl : 2 ≤ (d.drop off).length := by simp; omega
  unfold u16At byteAt
  rw [← Nat.add_zero off, ← getD_drop_add, ← getD_drop_add]
  simp only [Nat.add_zero]
  rcases hd : d.drop off with _ | ⟨a, _ | ⟨b, t⟩⟩ <;> rw [hd] at hl <;> simp at hl
  simp [leUnsigned]

theorem leSigned_take4 (d : List Nat) (off : Nat) (h : off + 4 ≤ d.length) :
    leSigned ((d.drop off).take 4) = s32At d off := by
  have hl : ((d.drop off).take 4).length = 4 := by simp; omega
  unfold leSigned s32At
  rw [leUnsigned_take4 d off h, hl]
  rfl

theorem fieldBytes_memcpy (layout d : List Nat) (off n k : Nat)
    (hk : (layout.take k).sum + layout.getD k 0 ≤ n) :
    fieldBytes layout ((d.drop off).take n) k =
      (d.drop (off + (layout.take k).sum)).take (layout.getD k 0) := by
  unfold fieldBytes
  rw [List.drop_take, List.take_take, List.drop_drop, Nat.min_eq_left (by omega)]

theorem copyHeaders_returned (r r' : BMPReader.State)
    (h : BMPReader.copyHeaders r = Outcome.returned r') :
    ∃ d, r._data = some d ∧ 54 ≤ d.length ∧
      r' = { r with bmpHeader := BITMAPFILEHEADER.ofBytes ((d.drop 0).take 14),
                    bmpInfoHeader := BITMAPINFOHEADER.ofBytes ((d.drop 14).take 40) } := by
  unfold BMPReader.copyHeaders at h
  cases hd : r._data with
  | none => rw [hd] at h; simp at h
  | some d =>
    rw [hd] at h
    have h14 : BITMAPFILEHEADER.sizeof = 14 := by decide
    have h40 : BITMAPINFOHEADER.sizeof = 40 := by decide
    simp only [h14, h40, memcpy] at h
    by_cases hlen : 54 ≤ d.length
    · refine ⟨d, rfl, hlen, ?_⟩
      rw [if_pos (by omega), if_pos (by omega)] at h
      simp only [Outcome.returned.injEq] at h
      exact h.symm
    · exfalso
      by_cases h1 : 0 + 14 ≤ d.length
      · rw [if_pos h1, if_neg (by omega)] at h
        simp at h
      · rw [if_neg h1] at h
        simp at h

theorem openBMP_returned (fs : FileSystem) (r r' : BMPReader.State)
    (h : BMPReader.openBMP fs r = Outcome.returned r') :
    ∃ r4, BMPReader.copyHeaders r4 = Outcome.returned r' := by
  unfold BMPReader.openBMP at h
  simp only at h
  split at h
  · simp at h
  · split at h
    · simp at h
    · split at h
      · simp at h
      · split at h
        · simp at h
        · split at h
          · simp at h
          · exact ⟨_, h⟩

/-- C7: when `openBMP` returns, the buffer has at least 54 bytes and every header
field is the little-endian number at its fixed offset of the buffer: the file
header from bytes 0..13 (`bfOffBits` from bytes 10..13), the info header from
bytes 14..53 (`biWidth` signed from 18..21, `biHeight` signed from 22..25,
`biBitCount` from 28..29). -/
theorem openBMP_headers_little_endian (fs : FileSystem) (r r' : BMPReader.State)
    (h : BMPReader.openBMP fs r = Outcome.returned r') :
    ∃ d, r'._data = some d ∧ 54 ≤ d.length ∧
      r'.bmpHeader = ⟨u16At d 0, u32At d 2, u16At d 6, u16At d 8, u32At d 10⟩ ∧
      r'.bmpInfoHeader = ⟨u32At d 14, s32At d 18, s32At d 22, u16At d 26, u16At d 28,
        u32At d 30, u32At d 34, s32At d 38, s32At d 42, u32At d 46, u32At d 50⟩ ∧
      r'.bmpHeader.bfOffBits = u32At d 10 ∧
      r'.bmpInfoHeader.biWidth = s32At d 18 ∧
      r'.bmpInfoHeader.biHeight = s32At d 22 ∧
      r'.bmpInfoHeader.biBitCount = u16At d 28 := by
  obtain ⟨r4, h4⟩ := openBMP_returned fs r r' h
  obtain ⟨d, hd, hlen, hr⟩ := copyHeaders_returned r4 r' h4
  have hfh : r'.bmpHeader = ⟨u16At d 0, u32At d 2, u16At d 6, u16At d 8, u32At d 10⟩ := by
    rw [hr]
    simp only [BITMAPFILEHEADER.ofBytes]
    rw [fieldBytes_memcpy _ _ _ _ _ (by decide), fieldBytes_memcpy _ _ _ _ _ (by decide),
      fieldBytes_memcpy _ _ _ _ _ (by decide), fieldBytes_memcpy _ _ _ _ _ (by decide),
      fieldBytes_memcpy _ _ _ _ _ (by decide)]
    simp only [BITMAPFILEHEADER.layout, List.take, List.sum_cons, List.sum_nil, List.getD_cons_zero,
      List.getD_cons_succ, Nat.zero_add, Nat.add_zero, Nat.reduceAdd]
    rw [leUnsigned_take2 d 0 (by omega), leUnsigned_take4 d 2 (by omega),
      leUnsigned_take2 d 6 (by omega), leUnsigned_take2 d 8 (by omega),
      leUnsigned_take4 d 10 (by omega)]
  have hih : r'.bmpInfoHeader = ⟨u32At d 14, s32At d 18, s32At d 22, u16At d 26, u16At d 28,
        u32At d 30, u32At d 34, s32At d 38, s32At d 42, u32At d 46, u32At d 50⟩ := by
    rw [hr]
    simp only [BITMAPINFOHEADER.ofBytes]
    rw [fieldBytes_memcpy _ _ _ _ _ (by decide), fieldBytes_memcpy _ _ _ _ _ (by decide),
      fieldBytes_memcpy _ _ _ _ _ (by decide), fieldBytes_memcpy _ _ _ _ _ (by decide),
      fieldBytes_memcpy _ _ _ _ _ (by decide), fieldBytes_memcpy _ _ _ _ _ (by decide),
      fieldBytes_memcpy _ _ _ _ _ (by decide), fieldBytes_memcpy _ _ _ _ _ (by decide),
      fieldBytes_memcpy _ _ _ _ _ (by decide), fieldBytes_memcpy _ _ _ _ _ (by decide),
      fieldBytes_memcpy _ _ _ _ _ (by decide)]
    simp only [BITMAPINFOHEADER.layout, List.take, List.sum_cons, List.sum_nil,
      List.getD_cons_zero, List.getD_cons_succ, Nat.zero_add, Nat.add_zero, Nat.reduceAdd]
    rw [leUnsigned_take4 d 14 (by omega), leSigned_take4 d 18 (by omega),
      leSigned_take4 d 22 (by omega), leUnsigned_take2 d 26 (by omega),
      leUnsigned_take2 d 28 (by omega), leUnsigned_take4 d 30 (by omega),
      leUnsigned_take4 d 34 (by omega), leSigned_take4 d 38 (by omega),
      leSigned_take4 d 42 (by omega), leUnsigned_take4 d 46 (by omega),
      leUnsigned_take4 d 50 (by omega)]
  refine ⟨d, ?_, hlen, hfh, hih, ?_, ?_, ?_, ?_⟩
  · rw [hr]; exact hd
  · rw [hfh]
  · rw [hih]
  · rw [hih]
  · rw [hih]

/-- C7 on a file of 58 bytes holding one white pixel. -/
theorem openBMP_headers_little_endian_witness :
    BMPReader.openBMP (oneFile whitePixelFile) (BMPReader.new (String.toList "a.bmp"))
      = Outcome.returned whitePixelLoaded ∧
    ∃ d, whitePixelLoaded._data = some d ∧ 54 ≤ d.length ∧
      whitePixelLoaded.bmpHeader = ⟨u16At d 0, u32At d 2, u16At d 6, u16At d 8, u32At d 10⟩ ∧
      whitePixelLoaded.bmpInfoHeader =
        ⟨u32At d 14, s32At d 18, s32At d 22, u16At d 26, u16At d 28,
          u32At d 30, u32At d 34, s32At d 38, s32At d 42, u32At d 46, u32At d 50⟩ ∧
      whitePixelLoaded.bmpHeader.bfOffBits = u32At d 10 ∧
      whitePixelLoaded.bmpInfoHeader.biWidth = s32At d 18 ∧
      whitePixelLoaded.bmpInfoHeader.biHeight = s32At d 22 ∧
      whitePixelLoaded.bmpInfoHeader.biBitCount = u16At d 28 :=
  ⟨by decide,
   openBMP_headers_little_endian (oneFile whitePixelFile)
     (BMPReader.new (String.toList "a.bmp")) whitePixelLoaded (by decide)⟩

end OpenBMP

section NeverOpened

theorem initStatics_zero :
    BMPReader.initStatics ⟨0, 0, 0, 0, 0, 0, 0, 0, 0, 0, 0⟩ = ⟨0, 0, 0, 0, 0⟩ := by decide

theorem fillPixels_zero (r : BMPReader.State) :
    BMPReader.fillPixels ⟨0, 0, 0, 0, 0⟩ r = some [] := rfl

theorem showPixels_zero :
    BMPReader.showPixels ⟨0, 0, 0, 0, 0⟩ [] = some [Char.ofNat 10] := rfl

theorem displayBMP_new (filename : List Char) :
    BMPReader.displayBMP none (BMPReader.new filename)
      = Outcome.returned (some ⟨0, 0, 0, 0, 0⟩, [Char.ofNat 10]) := by
  have hst : BMPReader.initStatics (BMPReader.new filename).bmpInfoHeader = ⟨0, 0, 0, 0, 0⟩ :=
    initStatics_zero
  unfold BMPReader.displayBMP
  rw [Option.getD_none, hst]
  unfold BMPReader.displayWith
  rw [fillPixels_zero, Option.some_bind, showPixels_zero]

/-- C10 (as stated, refuted): on a `BMPReader` that was never opened, the first
`displayBMP` of the process does not fail: it does not throw, it returns. -/
theorem displayBMP_unopened_no_failure :
    ¬ ∃ msg s, BMPReader.displayBMP none (BMPReader.new (String.toList "a.bmp"))
      = Outcome.threw msg s := by
  rintro ⟨msg, s, h⟩
  rw [displayBMP_new] at h
  cases h

/-- C10 (amended): on a `BMPReader` on which `openBMP` was never called, the
`displayBMP` call that initialises the statics returns normally: the headers are
zero, no row is parsed, the text is the single final line break, and the null
buffer is never read (a read of it would be the outcome `undefined`). -/
theorem displayBMP_unopened_empty (filename : List Char) :
    BMPReader.displayBMP none (BMPReader.new filename)
      = Outcome.returned (some ⟨0, 0, 0, 0, 0⟩, [Char.ofNat 10]) ∧
    (BMPReader.new filename)._data = none ∧
    BMPReader.fillPixels ⟨0, 0, 0, 0, 0⟩ (BMPReader.new filename) = some [] :=
  ⟨displayBMP_new filename, rfl, rfl⟩

end NeverOpened

section ParseLoops

theorem forLoop_succ {σ : Type} (k : Nat) (body : Nat → σ → Option σ) (init : σ) :
    forLoop (k + 1) body init = (forLoop k body init).bind (body k) := rfl

theorem set_self_of_getElem? {α : Type} (l : List α) (i : Nat) (a : α)
    (h : l[i]? = some a) : l.set i a = l := by
  apply List.ext_getElem?
  intro n
  rw [List.getElem?_set]
  split
  · next hin =>
    subst hin
    obtain ⟨hlt, _⟩ := List.getElem?_eq_some.mp h
    rw [if_pos hlt, h]
  · rfl

/-- The row under construction: its first `n` bytes come from `src`, the
others are still those of `cells`. -/
theorem getElem?_take_append_drop (cells src : List Nat) (n i : Nat) (hn : n ≤ src.length) :
    (src.take n ++ cells.drop n)[i]? = if i < n then src[i]? else cells[i]? := by
  have hlen : (src.take n).length = n := by simp; omega
  by_cases hi : i < n
  · rw [if_pos hi, List.getElem?_append_left (by omega), List.getElem?_take_of_lt hi]
  · rw [if_neg hi, List.getElem?_append_right (by omega), hlen, List.getElem?_drop]
    congr 1
    omega

theorem three_sets (cells src : List Nat) (n : Nat) (c1 c2 c3 : Nat)
    (hsrc : 3 * n + 3 ≤ src.length) (hline : 3 * n + 3 ≤ cells.length)
    (h1 : src[3 * n]? = some c1) (h2 : src[3 * n + 1]? = some c2)
    (h3 : src[3 * n + 2]? = some c3) :
    (((src.take (3 * n) ++ cells.drop (3 * n)).set (3 * n) c1).set (3 * n + 1) c2).set
        (3 * n + 2) c3
      = src.take (3 * (n + 1)) ++ cells.drop (3 * (n + 1)) := by
  apply List.ext_getElem?
  intro i
  have hl : (src.take (3 * n) ++ cells.drop (3 * n)).length = cells.length := by
    simp; omega
  rw [getElem?_take_append_drop cells src (3 * (n + 1)) i (by omega)]
  simp only [List.getElem?_set, List.length_set, hl,
    getElem?_take_append_drop cells src (3 * n) i (by omega)]
  by_cases e3 : 3 * n + 2 = i
  · subst e3
    rw [if_pos rfl, if_pos (by omega), if_pos (by omega), h3]
  · rw [if_neg e3]
    by_cases e2 : 3 * n + 1 = i
    · subst e2
      rw [if_pos rfl, if_pos (by omega), if_pos (by omega), h2]
    · rw [if_neg e2]
      by_cases e1 : 3 * n = i
      · subst e1
        rw [if_pos rfl, if_pos (by omega), if_pos (by omega), h1]
      · rw [if_neg e1]
        by_cases hlt : i < 3 * n
        · rw [if_pos hlt, if_pos (by omega)]
        · rw [if_neg hlt, if_neg (by omega)]

theorem getElem?_eq_byteAt (d : List Nat) (p : Nat) (h : p < d.length) :
    d[p]? = some (byteAt d p) := by
  unfold byteAt
  rw [List.getD_eq_getElem?_getD, List.getElem?_eq_getElem h]
  rfl

theorem readData_ofNat (r : BMPReader.State) (d : List Nat) (p : Nat)
    (hd : r._data = some d) (h : p < d.length) :
    BMPReader.readData r._data (Int.ofNat p) = some (byteAt d p) := by
  rw [hd]
  unfold BMPReader.readData
  simp only [Int.ofNat_eq_coe, Int.toNat_ofNat]
  rw [if_neg (by omega), getElem?_eq_byteAt d p h]

theorem writePixel_ofNat (pv : List (List Nat)) (cells : List Nat) (ρ col v : Nat)
    (hpv : pv[ρ]? = some cells) (hcol : col < cells.length) :
    BMPReader.writePixel pv (Int.ofNat ρ) col v = some (pv.set ρ (cells.set col v)) := by
  unfold BMPReader.writePixel
  simp only [Int.ofNat_eq_coe, Int.toNat_ofNat]
  rw [if_neg (by omega), hpv]
  simp only
  rw [if_pos hcol]

theorem getElem?_set_same {α : Type} (l : List α) (i : Nat) (a b : α)
    (h : l[i]? = some a) : (l.set i b)[i]? = some b := by
  obtain ⟨hlt, _⟩ := List.getElem?_eq_some.mp h
  rw [List.getElem?_set, if_pos rfl, if_pos hlt]

/-- One pass of the inner parse loop on a 24-bit image: three bytes of the
buffer land in three cells of the row. -/
theorem fillPixel_eq (st : BMPReader.DisplayStatics) (r : BMPReader.State) (d : List Nat)
    (y x ρ : Nat) (pv : List (List Nat)) (cells : List Nat)
    (hd : r._data = some d) (hb : st.bytesPerPixel = 3)
    (hrow : BMPReader.offsetRow st y = Int.ofNat ρ)
    (hpv : pv[ρ]? = some cells) (hx : 3 * x + 3 ≤ cells.length)
    (hfit : r.bmpHeader.bfOffBits + y * st.rowPadded + 3 * x + 3 ≤ d.length)
    (hsmall : d.length ≤ 2147483648) :
    BMPReader.fillPixel st r y x pv =
      some (pv.set ρ
        (((cells.set (3 * x) (byteAt d (r.bmpHeader.bfOffBits + y * st.rowPadded + 3 * x))).set
          (3 * x + 1) (byteAt d (r.bmpHeader.bfOffBits + y * st.rowPadded + 3 * x + 1))).set
          (3 * x + 2) (byteAt d (r.bmpHeader.bfOffBits + y * st.rowPadded + 3 * x + 2)))) := by
  have hp : BMPReader.offsetPixel st r.bmpHeader.bfOffBits y x
      = Int.ofNat (r.bmpHeader.bfOffBits + y * st.rowPadded + 3 * x) := by
    unfold BMPReader.offsetPixel
    rw [hb, Nat.mul_comm x 3, Nat.mod_eq_of_lt (by omega)]
    apply toI32_of_range <;> simp only [Int.ofNat_eq_coe] <;> omega
  have hp1 : toI32 (Int.ofNat (r.bmpHeader.bfOffBits + y * st.rowPadded + 3 * x) + 1)
      = Int.ofNat (r.bmpHeader.bfOffBits + y * st.rowPadded + 3 * x + 1) := by
    rw [toI32_of_range] <;> simp only [Int.ofNat_eq_coe] <;> omega
  have hp2 : toI32 (Int.ofNat (r.bmpHeader.bfOffBits + y * st.rowPadded + 3 * x) + 2)
      = Int.ofNat (r.bmpHeader.bfOffBits + y * st.rowPadded + 3 * x + 2) := by
    rw [toI32_of_range] <;> simp only [Int.ofNat_eq_coe] <;> omega
  unfold BMPReader.fillPixel
  simp only [hp, hp1, hp2, hrow, hb]
  rw [readData_ofNat r d _ hd (by omega), readData_ofNat r d _ hd (by omega),
    readData_ofNat r d _ hd (by omega)]
  simp only [Option.some_bind]
  rw [Nat.mul_comm x 3, Nat.mod_eq_of_lt (by omega), Nat.mod_eq_of_lt (by omega),
    Nat.mod_eq_of_lt (by omega)]
  rw [writePixel_ofNat pv cells ρ _ _ hpv (by omega)]
  simp only [Option.some_bind]
  rw [writePixel_ofNat _ _ ρ _ _ (getElem?_set_same pv ρ cells _ hpv) (by simp; omega)]
  simp only [Option.some_bind]
  rw [writePixel_ofNat _ _ ρ _ _
    (getElem?_set_same _ ρ _ _ (getElem?_set_same pv ρ cells _ hpv)) (by simp; omega)]
  rw [List.set_set, List.set_set]

/-- The inner parse loop, after `n` columns of file row `y`. -/
theorem fillColumns_eq (st : BMPReader.DisplayStatics) (r : BMPReader.State) (d : List Nat)
    (y ρ : Nat) (pv : List (List Nat)) (cells : List Nat)
    (hd : r._data = some d) (hb : st.bytesPerPixel = 3)
    (hrow : BMPReader.offsetRow st y = Int.ofNat ρ)
    (hpv : pv[ρ]? = some cells) (hsmall : d.length ≤ 2147483648) (n : Nat)
    (hn : 3 * n ≤ cells.length)
    (hfit : r.bmpHeader.bfOffBits + y * st.rowPadded + 3 * n ≤ d.length) :
    forLoop n (fun x pv1 => BMPReader.fillPixel st r y x pv1) pv =
      some (pv.set ρ
        ((d.drop (r.bmpHeader.bfOffBits + y * st.rowPadded)).take (3 * n)
          ++ cells.drop (3 * n))) := by
  induction n with
  | zero =>
    simp only [forLoop, Nat.mul_zero, List.take_zero, List.drop_zero, List.nil_append]
    rw [set_self_of_getElem? pv ρ cells hpv]
  | succ n ih =>
    rw [forLoop_succ, ih (by omega) (by omega), Option.some_bind]
    have hlen : ((d.drop (r.bmpHeader.bfOffBits + y * st.rowPadded)).take (3 * n)
          ++ cells.drop (3 * n)).length = cells.length := by
      simp; omega
    rw [fillPixel_eq st r d y n ρ _ _ hd hb hrow (getElem?_set_same pv ρ cells _ hpv)
      (by rw [hlen]; omega) (by omega) hsmall, List.set_set]
    congr 2
    apply three_sets
    · simp; omega
    · omega
    · rw [List.getElem?_drop]
      exact getElem?_eq_byteAt d _ (by omega)
    · rw [List.getElem?_drop]
      exact getElem?_eq_byteAt d _ (by omega)
    · rw [List.getElem?_drop]
      exact getElem?_eq_byteAt d _ (by omega)

theorem offsetRow_eq (st : BMPReader.DisplayStatics) (y : Nat)
    (hH : st.heightAbs ≤ 2147483648) (hy : y < st.heightAbs) :
    BMPReader.offsetRow st y = Int.ofNat (rowSource st y) := by
  unfold BMPReader.offsetRow rowSource
  by_cases hpos : st.height > 0
  · rw [if_pos hpos, if_pos hpos]
    have h1 : toU32 (Int.ofNat st.heightAbs - 1 - Int.ofNat y) = st.heightAbs - 1 - y := by
      rw [toU32_of_lt] <;> simp only [Int.ofNat_eq_coe] <;> omega
    rw [h1]
    apply toI32_of_range <;> simp only [Int.ofNat_eq_coe] <;> omega
  · rw [if_neg hpos, if_neg hpos]
    apply toI32_of_range <;> simp only [Int.ofNat_eq_coe] <;> omega

theorem parsedAfter_length (st : BMPReader.DisplayStatics) (d : List Nat) (off k : Nat) :
    (parsedAfter st d off k).length = st.heightAbs := by
  simp [parsedAfter]

theorem parsedAfter_getElem? (st : BMPReader.DisplayStatics) (d : List Nat) (off k ρ : Nat)
    (hρ : ρ < st.heightAbs) :
    (parsedAfter st d off k)[ρ]? =
      some (if rowSource st ρ < k then
        (d.drop (off + rowSource st ρ * st.rowPadded)).take (3 * st.width)
      else List.replicate (3 * st.width) 0) := by
  unfold parsedAfter
  rw [List.getElem?_map, List.getElem?_range hρ]
  rfl

theorem rowSource_lt (st : BMPReader.DisplayStatics) (y : Nat) (hy : y < st.heightAbs) :
    rowSource st y < st.heightAbs := by
  unfold rowSource
  split <;> omega

theorem rowSource_rowSource (st : BMPReader.DisplayStatics) (y : Nat)
    (hy : y < st.heightAbs) : rowSource st (rowSource st y) = y := by
  unfold rowSource
  split <;> omega

/-- The outer parse loop, after `k` stored rows. -/
theorem fillRows_eq (st : BMPReader.DisplayStatics) (r : BMPReader.State) (d : List Nat)
    (hd : r._data = some d) (hb : st.bytesPerPixel = 3)
    (hH : st.heightAbs ≤ 2147483648) (hsmall : d.length ≤ 2147483648)
    (hfit : ∀ y, y < st.heightAbs →
      r.bmpHeader.bfOffBits + y * st.rowPadded + 3 * st.width ≤ d.length)
    (k : Nat) (hk : k ≤ st.heightAbs) :
    forLoop k
        (fun y pv => forLoop st.width (fun x pv1 => BMPReader.fillPixel st r y x pv1) pv)
        (parsedAfter st d r.bmpHeader.bfOffBits 0)
      = some (parsedAfter st d r.bmpHeader.bfOffBits k) := by
  induction k with
  | zero => rfl
  | succ k ih =>
    rw [forLoop_succ, ih (by omega), Option.some_bind]
    have hk' : k < st.heightAbs := by omega
    have hρ := rowSource_lt st k hk'
    have hline := parsedAfter_getElem? st d r.bmpHeader.bfOffBits k (rowSource st k) hρ
    rw [rowSource_rowSource st k hk', if_neg (Nat.lt_irrefl k)] at hline
    rw [fillColumns_eq st r d k (rowSource st k) _ _ hd hb (offsetRow_eq st k hH hk') hline
      hsmall st.width (by simp) (hfit k hk')]
    congr 1
    apply List.ext_getElem?
    intro n
    rw [List.getElem?_set, parsedAfter_length]
    by_cases hn : n < st.heightAbs
    · rw [parsedAfter_getElem? st d _ (k + 1) n hn, parsedAfter_getElem? st d _ k n hn]
      by_cases he : rowSource st k = n
      · subst he
        rw [if_pos rfl, if_pos hρ, rowSource_rowSource st k hk', if_pos (Nat.lt_succ_self k)]
        simp
      · rw [if_neg he]
        have hne : rowSource st n ≠ k := by
          intro hc
          apply he
          rw [← hc, rowSource_rowSource st n hn]
        by_cases hlt : rowSource st n < k
        · rw [if_pos hlt, if_pos (by omega)]
        · rw [if_neg hlt, if_neg (by omega)]
    · have hnone : ∀ j, (parsedAfter st d r.bmpHeader.bfOffBits j)[n]? = none := by
        intro j
        apply List.getElem?_eq_none
        rw [parsedAfter_length]
        omega
      have hne : rowSource st k ≠ n := by omega
      rw [hnone, hnone, if_neg hne]

end ParseLoops

section OutputLoops

theorem readVector_eq_byteAt (cells : List Nat) (p : Nat) (h : p < cells.length) :
    BMPReader.readVector cells p = some (byteAt cells p) :=
  getElem?_eq_byteAt cells p h

/-- One pass of the inner output loop on a 24-bit image. -/
theorem showPixel_eq (st : BMPReader.DisplayStatics) (pv : List (List Nat)) (cells : List Nat)
    (i j : Nat) (out : List Char) (hb : st.bytesPerPixel = 3)
    (hpv : pv[i]? = some cells) (hj : 3 * j + 3 ≤ cells.length)
    (hlen : cells.length ≤ 4294967296) :
    BMPReader.showPixel st pv i j out = some (out ++ [symbolAt cells (3 * j)]) := by
  unfold BMPReader.showPixel
  rw [hb, Nat.mul_comm j 3, Nat.mod_eq_of_lt (by omega), Nat.mod_eq_of_lt (by omega),
    Nat.mod_eq_of_lt (by omega)]
  have h0 : BMPReader.readVector pv i = some cells := hpv
  rw [h0, Option.some_bind, readVector_eq_byteAt cells _ (by omega), Option.some_bind,
    readVector_eq_byteAt cells _ (by omega), Option.some_bind,
    readVector_eq_byteAt cells _ (by omega), Option.some_bind]
  rfl

/-- The inner output loop, after `n` columns of row `i`. -/
theorem showColumns_eq (st : BMPReader.DisplayStatics) (pv : List (List Nat))
    (cells : List Nat) (i : Nat) (out : List Char) (hb : st.bytesPerPixel = 3)
    (hpv : pv[i]? = some cells) (hlen : cells.length ≤ 4294967296) (n : Nat)
    (hn : 3 * n ≤ cells.length) :
    forLoop n (fun j out1 => BMPReader.showPixel st pv i j out1) out =
      some (out ++ (List.range n).map fun j => symbolAt cells (3 * j)) := by
  induction n with
  | zero => simp [forLoop]
  | succ n ih =>
    rw [forLoop_succ, ih (by omega), Option.some_bind,
      showPixel_eq st pv cells i n _ hb hpv (by omega) hlen, List.range_succ, List.map_append,
      List.append_assoc]
    rfl

/-- The outer output loop, after `k` rows. -/
theorem showRows_eq (st : BMPReader.DisplayStatics) (pv : List (List Nat))
    (rows : Nat → List Nat) (hb : st.bytesPerPixel = 3)
    (hrows : ∀ i, i < st.heightAbs →
      pv[i]? = some (rows i) ∧ (rows i).length = 3 * st.width)
    (hW : 3 * st.width ≤ 4294967296) (k : Nat) (hk : k ≤ st.heightAbs) :
    forLoop k
        (fun i out =>
          (forLoop st.width (fun j out1 => BMPReader.showPixel st pv i j out1) out).map
            fun out2 => out2 ++ [Char.ofNat 10])
        []
      = some (((List.range k).map fun i =>
          ((List.range st.width).map fun j => symbolAt (rows i) (3 * j))
            ++ [Char.ofNat 10]).flatten) := by
  induction k with
  | zero => simp [forLoop]
  | succ k ih =>
    obtain ⟨hpv, hlen⟩ := hrows k (by omega)
    rw [forLoop_succ, ih (by omega), Option.some_bind,
      showColumns_eq st pv (rows k) k _ hb hpv (by omega) st.width (by omega),
      Option.map_some', List.range_succ, List.map_append, List.flatten_append]
    simp

theorem byteAt_take_drop (d : List Nat) (b n p : Nat) (hp : p < n) :
    byteAt ((d.drop b).take n) p = byteAt d (b + p) := by
  unfold byteAt
  rw [List.getD_eq_getElem?_getD, List.getD_eq_getElem?_getD, List.getElem?_take_of_lt hp,
    List.getElem?_drop]

theorem symbolAt_take_drop (d : List Nat) (b n p : Nat) (hp : p + 3 ≤ n) :
    symbolAt ((d.drop b).take n) p = symbolAt d (b + p) := by
  unfold symbolAt
  rw [byteAt_take_drop d b n p (by omega), byteAt_take_drop d b n (p + 1) (by omega),
    byteAt_take_drop d b n (p + 2) (by omega)]
  rfl

theorem displayWith_no_rows (st : BMPReader.DisplayStatics) (r : BMPReader.State)
    (d : List Nat) (h0 : st.heightAbs = 0) :
    BMPReader.fillPixels st r = some (parsedAfter st d r.bmpHeader.bfOffBits st.heightAbs) ∧
    BMPReader.displayWith st r =
      Outcome.returned (some st, gridText (renderedRows st d r.bmpHeader.bfOffBits)) := by
  have hp : parsedAfter st d r.bmpHeader.bfOffBits st.heightAbs = [] := by
    unfold parsedAfter
    rw [h0]
    rfl
  have hr : renderedRows st d r.bmpHeader.bfOffBits = [] := by
    unfold renderedRows
    rw [h0]
    rfl
  have hfill : BMPReader.fillPixels st r = some [] := by
    unfold BMPReader.fillPixels
    rw [h0]
    rfl
  have hshow : BMPReader.showPixels st [] = some [Char.ofNat 10] := by
    unfold BMPReader.showPixels
    rw [h0]
    rfl
  refine ⟨by rw [hfill, hp], ?_⟩
  unfold BMPReader.displayWith
  rw [hfill, Option.some_bind, hshow, hr]
  rfl

/-- The body of `displayBMP` on a 24-bit image whose pixel rows lie inside a
buffer of at most `2^31` bytes: it returns the grid of the symbols of the stored
rows, in the order given by `rowSource`. -/
theorem displayWith_eq (st : BMPReader.DisplayStatics) (r : BMPReader.State) (d : List Nat)
    (hd : r._data = some d) (hb : st.bytesPerPixel = 3)
    (hH : st.heightAbs ≤ 2147483648) (hsmall : d.length ≤ 2147483648)
    (hfit : ∀ y, y < st.heightAbs →
      r.bmpHeader.bfOffBits + y * st.rowPadded + 3 * st.width ≤ d.length) :
    BMPReader.fillPixels st r = some (parsedAfter st d r.bmpHeader.bfOffBits st.heightAbs) ∧
    BMPReader.displayWith st r =
      Outcome.returned (some st, gridText (renderedRows st d r.bmpHeader.bfOffBits)) := by
  rcases Nat.eq_zero_or_pos st.heightAbs with h0 | hpos
  · exact displayWith_no_rows st r d h0
  have hW3 : st.width * 3 < 4294967296 := by
    have := hfit 0 hpos
    omega
  have hfill : BMPReader.fillPixels st r
      = some (parsedAfter st d r.bmpHeader.bfOffBits st.heightAbs) := by
    have hinit : List.replicate st.heightAbs
        (List.replicate ((st.width * st.bytesPerPixel) % 4294967296) 0)
        = parsedAfter st d r.bmpHeader.bfOffBits 0 := by
      rw [hb, Nat.mod_eq_of_lt hW3, Nat.mul_comm st.width 3]
      apply List.ext_getElem?
      intro n
      by_cases hn : n < st.heightAbs
      · rw [parsedAfter_getElem? st d _ 0 n hn, List.getElem?_replicate, if_pos hn,
          if_neg (Nat.not_lt_zero _)]
      · rw [List.getElem?_replicate, if_neg hn, List.getElem?_eq_none]
        rw [parsedAfter_length]
        omega
    unfold BMPReader.fillPixels
    rw [hinit]
    exact fillRows_eq st r d hd hb hH hsmall hfit st.heightAbs (Nat.le_refl _)
  refine ⟨hfill, ?_⟩
  have hrows : ∀ i, i < st.heightAbs →
      (parsedAfter st d r.bmpHeader.bfOffBits st.heightAbs)[i]?
        = some ((d.drop (r.bmpHeader.bfOffBits + rowSource st i * st.rowPadded)).take
            (3 * st.width)) ∧
      ((d.drop (r.bmpHeader.bfOffBits + rowSource st i * st.rowPadded)).take
            (3 * st.width)).length = 3 * st.width := by
    intro i hi
    have hsrc := rowSource_lt st i hi
    constructor
    · rw [parsedAfter_getElem? st d _ _ i hi, if_pos hsrc]
    · have := hfit (rowSource st i) hsrc
      rw [List.length_take, List.length_drop]
      omega
  have hshow := showRows_eq st (parsedAfter st d r.bmpHeader.bfOffBits st.heightAbs)
    (fun i => (d.drop (r.bmpHeader.bfOffBits + rowSource st i * st.rowPadded)).take
      (3 * st.width)) hb hrows (by omega) st.heightAbs (Nat.le_refl _)
  unfold BMPReader.displayWith
  rw [hfill, Option.some_bind]
  unfold BMPReader.showPixels
  rw [hshow, Option.map_some']
  simp only
  congr 2
  unfold gridText renderedRows rowSymbols
  congr 2
  rw [List.map_map]
  apply List.map_congr_left
  intro i _
  simp only [Function.comp]
  congr 1
  apply List.map_congr_left
  intro j hj
  rw [List.mem_range] at hj
  exact symbolAt_take_drop d _ (3 * st.width) (3 * j) (by omega)

end OutputLoops

section Rendering

theorem splitLines_row (row rest : List Char) (hnl : Char.ofNat 10 ∉ row) :
    splitLines (row ++ Char.ofNat 10 :: rest) = row :: splitLines rest := by
  induction row with
  | nil => simp [splitLines]
  | cons c t ih =>
    simp only [List.mem_cons, not_or] at hnl
    have hc : ¬ c = Char.ofNat 10 := fun e => hnl.1 e.symm
    rw [List.cons_append, splitLines, if_neg hc, ih hnl.2]

theorem splitLines_gridText (rows : List (List Char))
    (h : ∀ row, row ∈ rows → Char.ofNat 10 ∉ row) :
    splitLines (gridText rows) = rows ++ [[]] := by
  induction rows with
  | nil => simp [gridText, splitLines]
  | cons row rest ih =>
    have hrest := ih (fun x hx => h x (List.mem_cons_of_mem _ hx))
    unfold gridText at hrest ⊢
    simp only [List.map_cons, List.flatten_cons, List.append_assoc, List.singleton_append,
      List.cons_append]
    rw [splitLines_row row _ (h row (List.mem_cons_self _ _)), List.nil_append, hrest]

theorem rowSymbols_length (d : List Nat) (base width : Nat) :
    (rowSymbols d base width).length = width := by
  simp [rowSymbols]

theorem rowSymbols_no_newline (d : List Nat) (base width : Nat) :
    Char.ofNat 10 ∉ rowSymbols d base width := by
  unfold rowSymbols
  intro hmem
  rw [List.mem_map] at hmem
  obtain ⟨x, _, hx⟩ := hmem
  exact findColorSymbol_ne_newline _ hx

theorem rowSymbols_getElem? (d : List Nat) (base width x : Nat) (hx : x < width) :
    (rowSymbols d base width)[x]? = some (symbolAt d (base + 3 * x)) := by
  unfold rowSymbols
  rw [List.getElem?_map, List.getElem?_range hx]
  rfl

theorem renderedRows_getElem? (st : BMPReader.DisplayStatics) (d : List Nat) (off y : Nat)
    (hy : y < st.heightAbs) :
    (renderedRows st d off)[y]? =
      some (rowSymbols d (off + rowSource st y * st.rowPadded) st.width) := by
  unfold renderedRows
  rw [List.getElem?_map, List.getElem?_range hy]
  rfl

theorem renderedRows_mem (st : BMPReader.DisplayStatics) (d : List Nat) (off : Nat)
    (row : List Char) (h : row ∈ renderedRows st d off) :
    row.length = st.width ∧ Char.ofNat 10 ∉ row := by
  unfold renderedRows at h
  rw [List.mem_map] at h
  obtain ⟨y, _, rfl⟩ := h
  exact ⟨rowSymbols_length _ _ _, rowSymbols_no_newline _ _ _⟩

theorem initStatics_fields (ih : BITMAPINFOHEADER) (hbits : ih.biBitCount = 24)
    (hlo : -2147483648 ≤ ih.biHeight) (hhi : ih.biHeight < 2147483648) :
    (BMPReader.initStatics ih).height = ih.biHeight ∧
    (BMPReader.initStatics ih).heightAbs = ih.biHeight.natAbs ∧
    (BMPReader.initStatics ih).width = toU32 ih.biWidth ∧
    (BMPReader.initStatics ih).bytesPerPixel = 3 ∧
    (BMPReader.initStatics ih).rowPadded = BMPReader.rowPaddedInit ih.biWidth 3 := by
  have hbpp : toU32 (Int.ofNat (ih.biBitCount / 8)) = 3 := by rw [hbits]; decide
  refine ⟨?_, ?_, ?_, ?_, ?_⟩
  · simp only [BMPReader.initStatics]
    exact toI32_of_range _ hlo hhi
  · simp only [BMPReader.initStatics]
    exact heightAbs_eq _ hlo hhi
  · simp only [BMPReader.initStatics]
  · simp only [BMPReader.initStatics]
    exact hbpp
  · simp only [BMPReader.initStatics]
    rw [hbpp]

theorem strideOf_ge (w : Nat) : 3 * w ≤ strideOf w 3 := by
  unfold strideOf
  omega

/-- On a valid image with at least one row, the statics hold the width and the
stride of the claims, and every stored row lies inside the buffer. -/
theorem valid_geometry (r : BMPReader.State) (d : List Nat) (hv : Valid24 r d)
    (hpos : r.bmpInfoHeader.biHeight.natAbs ≠ 0) :
    (BMPReader.initStatics r.bmpInfoHeader).width = r.bmpInfoHeader.biWidth.toNat ∧
    (BMPReader.initStatics r.bmpInfoHeader).rowPadded
      = strideOf r.bmpInfoHeader.biWidth.toNat 3 ∧
    ∀ y, y < r.bmpInfoHeader.biHeight.natAbs →
      r.bmpHeader.bfOffBits + y * strideOf r.bmpInfoHeader.biWidth.toNat 3
        + 3 * r.bmpInfoHeader.biWidth.toNat ≤ d.length := by
  obtain ⟨_, _, hwid, _, hrow⟩ :=
    initStatics_fields r.bmpInfoHeader hv.bits hv.height_min hv.height_max
  have hge := strideOf_ge r.bmpInfoHeader.biWidth.toNat
  have hfit := hv.fits
  have hsmall := hv.small
  have hrows : ∀ y, y < r.bmpInfoHeader.biHeight.natAbs →
      y * strideOf r.bmpInfoHeader.biWidth.toNat 3 + strideOf r.bmpInfoHeader.biWidth.toNat 3
        ≤ r.bmpInfoHeader.biHeight.natAbs * strideOf r.bmpInfoHeader.biWidth.toNat 3 := by
    intro y hy
    rw [← Nat.succ_mul]
    exact Nat.mul_le_mul_right _ hy
  have hone := hrows 0 (Nat.pos_of_ne_zero hpos)
  have hw3 : r.bmpInfoHeader.biWidth.toNat * 3 + 3 < 4294967296 := by omega
  refine ⟨?_, ?_, ?_⟩
  · rw [hwid]
    exact toU32_of_lt _ hv.width_nonneg (by omega)
  · rw [hrow, rowPaddedInit_eq _ 3 hv.width_nonneg hw3]
    rfl
  · intro y hy
    have := hrows y hy
    omega

/-- The first `displayBMP` of the process on a valid image, in closed form. -/
theorem displayBMP_valid (r : BMPReader.State) (d : List Nat) (hv : Valid24 r d) :
    BMPReader.fillPixels (BMPReader.initStatics r.bmpInfoHeader) r
      = some (parsedAfter (BMPReader.initStatics r.bmpInfoHeader) d r.bmpHeader.bfOffBits
          r.bmpInfoHeader.biHeight.natAbs) ∧
    BMPReader.displayBMP none r
      = Outcome.returned (some (BMPReader.initStatics r.bmpInfoHeader),
          gridText (renderedRows (BMPReader.initStatics r.bmpInfoHeader) d
            r.bmpHeader.bfOffBits)) := by
  obtain ⟨hht, habs, hwid, hbpp, hrow⟩ :=
    initStatics_fields r.bmpInfoHeader hv.bits hv.height_min hv.height_max
  have hH : (BMPReader.initStatics r.bmpInfoHeader).heightAbs ≤ 2147483648 := by
    rw [habs]
    have := hv.height_min
    have := hv.height_max
    omega
  have hfit : ∀ y, y < (BMPReader.initStatics r.bmpInfoHeader).heightAbs →
      r.bmpHeader.bfOffBits + y * (BMPReader.initStatics r.bmpInfoHeader).rowPadded
        + 3 * (BMPReader.initStatics r.bmpInfoHeader).width ≤ d.length := by
    intro y hy
    rw [habs] at hy
    obtain ⟨hw, hs, hall⟩ := valid_geometry r d hv (by omega)
    rw [hw, hs]
    exact hall y hy
  have := displayWith_eq (BMPReader.initStatics r.bmpInfoHeader) r d hv.data hbpp hH hv.small hfit
  rw [habs] at this
  exact ⟨this.1, this.2⟩

theorem rowSource_initStatics (ih : BITMAPINFOHEADER) (hbits : ih.biBitCount = 24)
    (hlo : -2147483648 ≤ ih.biHeight) (hhi : ih.biHeight < 2147483648) (y : Nat) :
    rowSource (BMPReader.initStatics ih) y = fileRowOf ih.biHeight y := by
  obtain ⟨hht, habs, _, _, _⟩ := initStatics_fields ih hbits hlo hhi
  unfold rowSource fileRowOf
  rw [hht, habs]

/-- The pixel grid built by the parse loops on a valid image: row `y` holds the
stored row `fileRowOf height y`. -/
theorem pixelGrid_rows (r : BMPReader.State) (d : List Nat) (hv : Valid24 r d) :
    ∃ pv, BMPReader.fillPixels (BMPReader.initStatics r.bmpInfoHeader) r = some pv ∧
      pv.length = r.bmpInfoHeader.biHeight.natAbs ∧
      ∀ y, y < r.bmpInfoHeader.biHeight.natAbs →
        pv[y]? = some (storedRow d r.bmpHeader.bfOffBits
          (strideOf r.bmpInfoHeader.biWidth.toNat 3) r.bmpInfoHeader.biWidth.toNat
          (fileRowOf r.bmpInfoHeader.biHeight y)) := by
  obtain ⟨hht, habs, _, _, _⟩ :=
    initStatics_fields r.bmpInfoHeader hv.bits hv.height_min hv.height_max
  refine ⟨_, (displayBMP_valid r d hv).1, ?_, ?_⟩
  · rw [parsedAfter_length, habs]
  · intro y hy
    obtain ⟨hw, hs, _⟩ := valid_geometry r d hv (by omega)
    have hy' : y < (BMPReader.initStatics r.bmpInfoHeader).heightAbs := by rw [habs]; exact hy
    have hsrc := rowSource_lt _ y hy'
    rw [habs] at hsrc
    rw [parsedAfter_getElem? _ d _ _ y hy', if_pos hsrc,
      rowSource_initStatics _ hv.bits hv.height_min hv.height_max, hw, hs]
    rfl

theorem redBlueUp_valid : Valid24 redBlueUp (bmpFile 1 [2, 0, 0, 0] redThenBlue) :=
  ⟨rfl, rfl, by decide, by decide, by decide, by decide, by decide⟩

theorem redBlueDown_valid :
    Valid24 redBlueDown (bmpFile 1 [254, 255, 255, 255] redThenBlue) :=
  ⟨rfl, rfl, by decide, by decide, by decide, by decide, by decide⟩

end Rendering

section DisplayClaims

/-- C1: on a loaded 24-bit image (width not negative, pixel array inside the
buffer), rendered by the first `displayBMP` of the process, the symbol at line
`y`, column `x` of the text is `_findColorSymbol (Red, Green, Blue)`, where Blue,
Green, Red are the bytes at `p`, `p + 1`, `p + 2` for
`p = bfOffBits + fileRow * stride + x * 3`, `stride = (width * 3 + 3) / 4 * 4`,
`fileRow = abs(height) - 1 - y` for a positive height and `y` for a negative one. -/
theorem displayBMP_symbol_at (r : BMPReader.State) (d : List Nat) (y x : Nat)
    (hv : Valid24 r d) (hy : y < r.bmpInfoHeader.biHeight.natAbs)
    (hx : x < r.bmpInfoHeader.biWidth.toNat) :
    ∃ out row, BMPReader.displayBMP none r
        = Outcome.returned (some (BMPReader.initStatics r.bmpInfoHeader), out) ∧
      (splitLines out)[y]? = some row ∧
      row[x]? = some (BMPReader._findColorSymbol
        (byteAt d (r.bmpHeader.bfOffBits
            + fileRowOf r.bmpInfoHeader.biHeight y * strideOf r.bmpInfoHeader.biWidth.toNat 3
            + x * 3 + 2),
         byteAt d (r.bmpHeader.bfOffBits
            + fileRowOf r.bmpInfoHeader.biHeight y * strideOf r.bmpInfoHeader.biWidth.toNat 3
            + x * 3 + 1),
         byteAt d (r.bmpHeader.bfOffBits
            + fileRowOf r.bmpInfoHeader.biHeight y * strideOf r.bmpInfoHeader.biWidth.toNat 3
            + x * 3))) ∧
      r.bmpHeader.bfOffBits
        + fileRowOf r.bmpInfoHeader.biHeight y * strideOf r.bmpInfoHeader.biWidth.toNat 3
        + x * 3 + 2 < d.length ∧
      fileRowOf r.bmpInfoHeader.biHeight y =
        (if r.bmpInfoHeader.biHeight > 0 then r.bmpInfoHeader.biHeight.natAbs - 1 - y else y) := by
  obtain ⟨hht, habs, _, _, _⟩ :=
    initStatics_fields r.bmpInfoHeader hv.bits hv.height_min hv.height_max
  obtain ⟨hw, hs, hall⟩ := valid_geometry r d hv (by omega)
  have hy' : y < (BMPReader.initStatics r.bmpInfoHeader).heightAbs := by rw [habs]; exact hy
  have hsrc : fileRowOf r.bmpInfoHeader.biHeight y < r.bmpInfoHeader.biHeight.natAbs := by
    rw [← rowSource_initStatics _ hv.bits hv.height_min hv.height_max, ← habs]
    exact rowSource_lt _ y hy'
  refine ⟨_, rowSymbols d (r.bmpHeader.bfOffBits
      + rowSource (BMPReader.initStatics r.bmpInfoHeader) y
        * (BMPReader.initStatics r.bmpInfoHeader).rowPadded)
      (BMPReader.initStatics r.bmpInfoHeader).width,
    (displayBMP_valid r d hv).2, ?_, ?_, ?_, rfl⟩
  · rw [splitLines_gridText _ (fun row hrow => (renderedRows_mem _ d _ row hrow).2),
      List.getElem?_append_left (by simp [renderedRows]; omega)]
    exact renderedRows_getElem? _ d _ y hy'
  · rw [hw, hs, rowSource_initStatics _ hv.bits hv.height_min hv.height_max,
      rowSymbols_getElem? d _ _ x hx, Nat.mul_comm 3 x]
    rfl
  · have := hall _ hsrc
    omega

/-- C1 on the bottom-up red and blue image, at line 0, column 0. -/
theorem displayBMP_symbol_at_witness :
    ∃ out row, BMPReader.displayBMP none redBlueUp
        = Outcome.returned (some (BMPReader.initStatics redBlueUp.bmpInfoHeader), out) ∧
      (splitLines out)[0]? = some row ∧
      row[0]? = some (BMPReader._findColorSymbol
        (byteAt (bmpFile 1 [2, 0, 0, 0] redThenBlue) (redBlueUp.bmpHeader.bfOffBits
            + fileRowOf redBlueUp.bmpInfoHeader.biHeight 0
              * strideOf redBlueUp.bmpInfoHeader.biWidth.toNat 3 + 0 * 3 + 2),
         byteAt (bmpFile 1 [2, 0, 0, 0] redThenBlue) (redBlueUp.bmpHeader.bfOffBits
            + fileRowOf redBlueUp.bmpInfoHeader.biHeight 0
              * strideOf redBlueUp.bmpInfoHeader.biWidth.toNat 3 + 0 * 3 + 1),
         byteAt (bmpFile 1 [2, 0, 0, 0] redThenBlue) (redBlueUp.bmpHeader.bfOffBits
            + fileRowOf redBlueUp.bmpInfoHeader.biHeight 0
              * strideOf redBlueUp.bmpInfoHeader.biWidth.toNat 3 + 0 * 3))) ∧
      redBlueUp.bmpHeader.bfOffBits
        + fileRowOf redBlueUp.bmpInfoHeader.biHeight 0
          * strideOf redBlueUp.bmpInfoHeader.biWidth.toNat 3
        + 0 * 3 + 2 < (bmpFile 1 [2, 0, 0, 0] redThenBlue).length ∧
      fileRowOf redBlueUp.bmpInfoHeader.biHeight 0 =
        (if redBlueUp.bmpInfoHeader.biHeight > 0
          then redBlueUp.bmpInfoHeader.biHeight.natAbs - 1 - 0 else 0) :=
  displayBMP_symbol_at redBlueUp (bmpFile 1 [2, 0, 0, 0] redThenBlue) 0 0 redBlueUp_valid
    (by decide) (by decide)

/-- C2: on a valid 24-bit image, the text of the first `displayBMP` of the
process is `abs(height)` lines of `width` symbols each, followed by one empty
line. -/
theorem displayBMP_grid_dimensions (r : BMPReader.State) (d : List Nat) (hv : Valid24 r d) :
    ∃ rows, BMPReader.displayBMP none r
        = Outcome.returned (some (BMPReader.initStatics r.bmpInfoHeader), gridText rows) ∧
      splitLines (gridText rows) = rows ++ [[]] ∧
      rows.length = r.bmpInfoHeader.biHeight.natAbs ∧
      ∀ row, row ∈ rows →
        row.length = r.bmpInfoHeader.biWidth.toNat ∧ Char.ofNat 10 ∉ row := by
  obtain ⟨hht, habs, _, _, _⟩ :=
    initStatics_fields r.bmpInfoHeader hv.bits hv.height_min hv.height_max
  refine ⟨_, (displayBMP_valid r d hv).2, ?_, ?_, ?_⟩
  · exact splitLines_gridText _ (fun row hrow => (renderedRows_mem _ d _ row hrow).2)
  · simp [renderedRows, habs]
  · intro row hrow
    have hmem := renderedRows_mem _ d _ row hrow
    have hne : r.bmpInfoHeader.biHeight.natAbs ≠ 0 := by
      intro h0
      unfold renderedRows at hrow
      rw [habs, h0] at hrow
      simp at hrow
    obtain ⟨hw, _, _⟩ := valid_geometry r d hv hne
    rw [← hw]
    exact hmem

/-- C2 on the bottom-up red and blue image: two lines of one symbol. -/
theorem displayBMP_grid_dimensions_witness :
    ∃ rows, BMPReader.displayBMP none redBlueUp
        = Outcome.returned (some (BMPReader.initStatics redBlueUp.bmpInfoHeader),
            gridText rows) ∧
      splitLines (gridText rows) = rows ++ [[]] ∧
      rows.length = redBlueUp.bmpInfoHeader.biHeight.natAbs ∧
      ∀ row, row ∈ rows →
        row.length = redBlueUp.bmpInfoHeader.biWidth.toNat ∧ Char.ofNat 10 ∉ row :=
  displayBMP_grid_dimensions redBlueUp (bmpFile 1 [2, 0, 0, 0] redThenBlue) redBlueUp_valid

theorem redBlueUp_grid :
    BMPReader.fillPixels (BMPReader.initStatics redBlueUp.bmpInfoHeader) redBlueUp
      = some [[255, 0, 0], [0, 0, 255]] := by
  rw [(displayBMP_valid redBlueUp _ redBlueUp_valid).1]
  decide

theorem redBlueDown_grid :
    BMPReader.fillPixels (BMPReader.initStatics redBlueDown.bmpInfoHeader) redBlueDown
      = some [[0, 0, 255], [255, 0, 0]] := by
  rw [(displayBMP_valid redBlueDown _ redBlueDown_valid).1]
  decide

/-- C3: for a positive height (bottom-up storage), row `y` of the pixel grid that
`displayBMP` builds holds the pixels of stored row `abs(height) - 1 - y`; for the
1-pixel-wide image of height `+2` whose first stored row is red and second is blue,
row 0 of the grid is blue and row 1 is red. -/
theorem pixelGrid_bottom_up (r : BMPReader.State) (d : List Nat) (hv : Valid24 r d)
    (hpos : r.bmpInfoHeader.biHeight > 0) :
    (∃ pv, BMPReader.fillPixels (BMPReader.initStatics r.bmpInfoHeader) r = some pv ∧
      pv.length = r.bmpInfoHeader.biHeight.natAbs ∧
      ∀ y, y < r.bmpInfoHeader.biHeight.natAbs →
        pv[y]? = some (storedRow d r.bmpHeader.bfOffBits
          (strideOf r.bmpInfoHeader.biWidth.toNat 3) r.bmpInfoHeader.biWidth.toNat
          (r.bmpInfoHeader.biHeight.natAbs - 1 - y))) ∧
    storedRow (bmpFile 1 [2, 0, 0, 0] redThenBlue) 54 4 1 0 = [0, 0, 255] ∧
    storedRow (bmpFile 1 [2, 0, 0, 0] redThenBlue) 54 4 1 1 = [255, 0, 0] ∧
    BMPReader.fillPixels (BMPReader.initStatics redBlueUp.bmpInfoHeader) redBlueUp
      = some [[255, 0, 0], [0, 0, 255]] := by
  refine ⟨?_, by decide, by decide, redBlueUp_grid⟩
  obtain ⟨pv, hfill, hlen, hrows⟩ := pixelGrid_rows r d hv
  refine ⟨pv, hfill, hlen, ?_⟩
  intro y hy
  rw [hrows y hy]
  unfold fileRowOf
  rw [if_pos hpos]

/-- C3 on the bottom-up red and blue image. -/
theorem pixelGrid_bottom_up_witness :
    (∃ pv, BMPReader.fillPixels (BMPReader.initStatics redBlueUp.bmpInfoHeader) redBlueUp
        = some pv ∧
      pv.length = redBlueUp.bmpInfoHeader.biHeight.natAbs ∧
      ∀ y, y < redBlueUp.bmpInfoHeader.biHeight.natAbs →
        pv[y]? = some (storedRow (bmpFile 1 [2, 0, 0, 0] redThenBlue)
          redBlueUp.bmpHeader.bfOffBits
          (strideOf redBlueUp.bmpInfoHeader.biWidth.toNat 3)
          redBlueUp.bmpInfoHeader.biWidth.toNat
          (redBlueUp.bmpInfoHeader.biHeight.natAbs - 1 - y))) ∧
    storedRow (bmpFile 1 [2, 0, 0, 0] redThenBlue) 54 4 1 0 = [0, 0, 255] ∧
    storedRow (bmpFile 1 [2, 0, 0, 0] redThenBlue) 54 4 1 1 = [255, 0, 0] ∧
    BMPReader.fillPixels (BMPReader.initStatics redBlueUp.bmpInfoHeader) redBlueUp
      = some [[255, 0, 0], [0, 0, 255]] :=
  pixelGrid_bottom_up redBlueUp (bmpFile 1 [2, 0, 0, 0] redThenBlue) redBlueUp_valid
    (by decide)

/-- C4: for a negative height (top-down storage), row `y` of the pixel grid that
`displayBMP` builds holds the pixels of stored row `y`, without inversion; for the
1-pixel-wide image of height `-2` whose first stored row is red and second is blue,
row 0 of the grid is red and row 1 is blue. -/
theorem pixelGrid_top_down (r : BMPReader.State) (d : List Nat) (hv : Valid24 r d)
    (hneg : r.bmpInfoHeader.biHeight < 0) :
    (∃ pv, BMPReader.fillPixels (BMPReader.initStatics r.bmpInfoHeader) r = some pv ∧
      pv.length = r.bmpInfoHeader.biHeight.natAbs ∧
      ∀ y, y < r.bmpInfoHeader.biHeight.natAbs →
        pv[y]? = some (storedRow d r.bmpHeader.bfOffBits
          (strideOf r.bmpInfoHeader.biWidth.toNat 3) r.bmpInfoHeader.biWidth.toNat y)) ∧
    storedRow (bmpFile 1 [254, 255, 255, 255] redThenBlue) 54 4 1 0 = [0, 0, 255] ∧
    storedRow (bmpFile 1 [254, 255, 255, 255] redThenBlue) 54 4 1 1 = [255, 0, 0] ∧
    BMPReader.fillPixels (BMPReader.initStatics redBlueDown.bmpInfoHeader) redBlueDown
      = some [[0, 0, 255], [255, 0, 0]] := by
  refine ⟨?_, by decide, by decide, redBlueDown_grid⟩
  obtain ⟨pv, hfill, hlen, hrows⟩ := pixelGrid_rows r d hv
  refine ⟨pv, hfill, hlen, ?_⟩
  intro y hy
  rw [hrows y hy]
  unfold fileRowOf
  rw [if_neg (by omega)]

/-- C4 on the top-down red and blue image. -/
theorem pixelGrid_top_down_witness :
    (∃ pv, BMPReader.fillPixels (BMPReader.initStatics redBlueDown.bmpInfoHeader)
        redBlueDown = some pv ∧
      pv.length = redBlueDown.bmpInfoHeader.biHeight.natAbs ∧
      ∀ y, y < redBlueDown.bmpInfoHeader.biHeight.natAbs →
        pv[y]? = some (storedRow (bmpFile 1 [254, 255, 255, 255] redThenBlue)
          redBlueDown.bmpHeader.bfOffBits
          (strideOf redBlueDown.bmpInfoHeader.biWidth.toNat 3)
          redBlueDown.bmpInfoHeader.biWidth.toNat y)) ∧
    storedRow (bmpFile 1 [254, 255, 255, 255] redThenBlue) 54 4 1 0 = [0, 0, 255] ∧
    storedRow (bmpFile 1 [254, 255, 255, 255] redThenBlue) 54 4 1 1 = [255, 0, 0] ∧
    BMPReader.fillPixels (BMPReader.initStatics redBlueDown.bmpInfoHeader) redBlueDown
      = some [[0, 0, 255], [255, 0, 0]] :=
  pixelGrid_top_down redBlueDown (bmpFile 1 [254, 255, 255, 255] redThenBlue)
    redBlueDown_valid (by decide)

end DisplayClaims

section OpenStages

theorem openFile_false (fs : FileSystem) (s : BinaryFileManager.State)
    (h : (BinaryFileManager.openFile fs s).1 = false) :
    BinaryFileManager.openFile fs s = (false, s) := by
  unfold BinaryFileManager.openFile at h ⊢
  split
  · rfl
  · split
    · next f hf =>
      rw [if_neg (by assumption), hf] at h
      simp at h
    · rfl

theorem openFile_true (fs : FileSystem) (s : BinaryFileManager.State)
    (h : (BinaryFileManager.openFile fs s).1 = true) :
    ∃ f, s._file = none ∧ s._extension = BinaryFileManager.getExtension s._filename ∧
      fs s._filename = some f ∧
      BinaryFileManager.openFile fs s = (true, { s with _file := some f }) := by
  unfold BinaryFileManager.openFile at h ⊢
  split at h
  · simp at h
  · next hc =>
    simp only [Bool.or_eq_true, Option.isSome_iff_exists, bne_iff_ne, ne_eq, not_or,
      not_exists, not_not] at hc
    have hnone : s._file = none := by
      cases hf : s._file with
      | none => rfl
      | some a => exact absurd hf (hc.1 a)
    cases hfs : fs s._filename with
    | none => rw [hfs] at h; simp at h
    | some f =>
      refine ⟨f, hnone, hc.2, rfl, ?_⟩
      rw [if_neg (by simp [hnone, hc.2])]

/-- The open stage: when `openFile` fails, `openBMP` throws with the state
unchanged. -/
theorem openBMP_open_failed (fs : FileSystem) (r : BMPReader.State)
    (h : (BinaryFileManager.openFile fs r.toState).1 = false) :
    BMPReader.openBMP fs r =
      Outcome.threw (String.toList "InvalidOpenBMPFile: " ++ r._filename) r := by
  have ho := openFile_false fs r.toState h
  unfold BMPReader.openBMP
  simp only [ho, Bool.not_false, if_true]

/-- The stages after a successful open on the file `f`: an empty file and a
failing device throw at the read stage, a file of `2^32` bytes or more overruns
the buffer, and otherwise the headers are copied from the bytes of the file. -/
theorem openBMP_opened (fs : FileSystem) (r : BMPReader.State) (f : OsFile)
    (hopen : BinaryFileManager.openFile fs r.toState
      = (true, { r.toState with _file := some f })) :
    BMPReader.openBMP fs r =
      if f.bytes.length = 0 then
        Outcome.threw (String.toList "InvalidReadFile: " ++ r._filename)
          { r with _file := none, _dataSize := 0 }
      else if 4294967296 ≤ f.bytes.length then Outcome.undefined
      else if f.readError = true then
        Outcome.threw (String.toList "InvalidReadFile: " ++ r._filename)
          { r with _file := none, _dataSize := f.bytes.length,
                   _data := some (List.replicate f.bytes.length 0) }
      else
        BMPReader.copyHeaders
          { r with _file := none, _dataSize := f.bytes.length, _data := some f.bytes } := by
  unfold BMPReader.openBMP
  simp only [hopen, Bool.not_true, Bool.false_eq_true, if_false,
    BinaryFileManager.getFileSize, BinaryFileManager.readFile, BinaryFileManager.closeFile,
    Option.isSome_some, if_true]
  by_cases h0 : f.bytes.length = 0
  · simp only [h0, if_true, Bool.not_false]
  · rw [if_neg h0, if_neg h0]
    by_cases hbig : 4294967296 ≤ f.bytes.length
    · have hcap : f.bytes.length % 4294967296 < f.bytes.length := by
        have := Nat.mod_lt f.bytes.length (by decide : 4294967296 > 0)
        omega
      rw [if_pos hcap, if_pos hbig]
    · have hmod : f.bytes.length % 4294967296 = f.bytes.length := Nat.mod_eq_of_lt (by omega)
      rw [hmod, if_neg (Nat.lt_irrefl _), if_neg hbig]
      by_cases herr : f.readError = true
      · simp only [herr, if_true, Bool.not_false]
      · simp only [herr, if_false, List.take_length, List.length_take, Nat.min_self,
          decide_True, Bool.not_true, Bool.false_eq_true, Nat.sub_self, List.replicate_zero,
          List.append_nil]

theorem copyHeaders_not_threw (r : BMPReader.State) (msg : List Char) (s : BMPReader.State) :
    BMPReader.copyHeaders r ≠ Outcome.threw msg s := by
  unfold BMPReader.copyHeaders
  split
  · simp
  · split <;> simp

/-- What a normal return of `openBMP` tells: the open succeeded on some file, the
stream is closed again, and the state is the old one with the size, the buffer
and the headers replaced. -/
theorem openBMP_returned_state (fs : FileSystem) (r r1 : BMPReader.State)
    (h : BMPReader.openBMP fs r = Outcome.returned r1) :
    ∃ f, r._file = none ∧ r._extension = BinaryFileManager.getExtension r._filename ∧
      fs r._filename = some f ∧ f.bytes.length ≠ 0 ∧ f.bytes.length < 4294967296 ∧
      f.readError = false ∧ 54 ≤ f.bytes.length ∧
      r1 = { r with _file := none, _dataSize := f.bytes.length, _data := some f.bytes,
                    bmpHeader := BITMAPFILEHEADER.ofBytes ((f.bytes.drop 0).take 14),
                    bmpInfoHeader := BITMAPINFOHEADER.ofBytes ((f.bytes.drop 14).take 40) } := by
  cases ho : (BinaryFileManager.openFile fs r.toState).1 with
  | false =>
    rw [openBMP_open_failed fs r ho] at h
    cases h
  | true =>
    obtain ⟨f, hnone, hext, hfs, hopen⟩ := openFile_true fs r.toState ho
    rw [openBMP_opened fs r f hopen] at h
    split at h
    · cases h
    · split at h
      · cases h
      · split at h
        · cases h
        · next h0 hbig herr =>
          obtain ⟨d, hd, hlen, hr1⟩ := copyHeaders_returned _ r1 h
          simp only [Option.some.injEq] at hd
          subst hd
          refine ⟨f, hnone, hext, hfs, h0, by omega, by simpa using herr, hlen, hr1⟩

end OpenStages

section Lifecycle

/-- C11 (as stated, refuted): after `a.bmp` has been opened, a second `openBMP` on
the same instance does not fail: it returns, and with another file under the
same name it replaces the buffer and the headers. -/
theorem openBMP_second_call_returns :
    BMPReader.openBMP (oneFile whitePixelFile) (BMPReader.new (String.toList "a.bmp"))
      = Outcome.returned whitePixelLoaded ∧
    BMPReader.openBMP (oneFile whitePixelFile) whitePixelLoaded
      = Outcome.returned whitePixelLoaded ∧
    BMPReader.openBMP (oneFile blackPixelFile) whitePixelLoaded
      = Outcome.returned blackPixelLoaded ∧
    blackPixelLoaded._data ≠ whitePixelLoaded._data ∧
    ¬ ∃ msg s, BMPReader.openBMP (oneFile whitePixelFile) whitePixelLoaded
      = Outcome.threw msg s := by
  have h2 : BMPReader.openBMP (oneFile whitePixelFile) whitePixelLoaded
      = Outcome.returned whitePixelLoaded := by decide
  refine ⟨by decide, h2, by decide, by decide, ?_⟩
  rintro ⟨msg, s, h⟩
  rw [h2] at h
  cases h

/-- C11 (amended): `openBMP` is re-entrant. After a call that returned, the
stream is closed, and a second call on the same instance opens the file again:
with a file of at least 54 and less than `2^32` bytes that reads without failure
it returns, with the buffer, the size and the headers loaded from that file. -/
theorem openBMP_reentrant (fs fs2 : FileSystem) (r r1 : BMPReader.State) (f2 : OsFile)
    (h1 : BMPReader.openBMP fs r = Outcome.returned r1)
    (hfs2 : fs2 r1._filename = some f2) (hlen : 54 ≤ f2.bytes.length)
    (hbig : f2.bytes.length < 4294967296) (herr : f2.readError = false) :
    r1._file = none ∧
    BMPReader.openBMP fs2 r1 =
      Outcome.returned
        { r1 with _dataSize := f2.bytes.length, _data := some f2.bytes,
                  bmpHeader := BITMAPFILEHEADER.ofBytes ((f2.bytes.drop 0).take 14),
                  bmpInfoHeader := BITMAPINFOHEADER.ofBytes ((f2.bytes.drop 14).take 40) } := by
  obtain ⟨f, hnone, hext, hfs, _, _, _, _, hr1⟩ := openBMP_returned_state fs r r1 h1
  have hfile : r1._file = none := by rw [hr1]
  have hname : r1._filename = r._filename := by rw [hr1]
  have hext1 : r1._extension = BinaryFileManager.getExtension r1._filename := by
    rw [hname, ← hext, hr1]
  refine ⟨hfile, ?_⟩
  have hopen : BinaryFileManager.openFile fs2 r1.toState
      = (true, { r1.toState with _file := some f2 }) := by
    unfold BinaryFileManager.openFile
    rw [if_neg (by simp [hfile, hext1])]
    show (match fs2 r1._filename with
      | some f => (true, { r1.toState with _file := some f })
      | none => (false, r1.toState)) = _
    rw [hfs2]
  rw [openBMP_opened fs2 r1 f2 hopen, if_neg (by omega), if_neg (by omega),
    if_neg (by simp [herr])]
  unfold BMPReader.copyHeaders
  have h14 : BITMAPFILEHEADER.sizeof = 14 := by decide
  have h40 : BITMAPINFOHEADER.sizeof = 40 := by decide
  simp only [h14, h40, memcpy]
  rw [if_pos (by omega), if_pos (by omega)]
  subst hr1
  rfl

/-- C11 (amended) on `a.bmp`: first one white pixel, then one black pixel. -/
theorem openBMP_reentrant_witness :
    whitePixelLoaded._file = none ∧
    BMPReader.openBMP (oneFile blackPixelFile) whitePixelLoaded =
      Outcome.returned
        { whitePixelLoaded with
            _dataSize := (OsFile.mk blackPixelFile false).bytes.length,
            _data := some (OsFile.mk blackPixelFile false).bytes,
            bmpHeader := BITMAPFILEHEADER.ofBytes
              (((OsFile.mk blackPixelFile false).bytes.drop 0).take 14),
            bmpInfoHeader := BITMAPINFOHEADER.ofBytes
              (((OsFile.mk blackPixelFile false).bytes.drop 14).take 40) } :=
  openBMP_reentrant (oneFile whitePixelFile) (oneFile blackPixelFile)
    (BMPReader.new (String.toList "a.bmp")) whitePixelLoaded ⟨blackPixelFile, false⟩
    (by decide) rfl (by decide) (by decide) rfl

/-- C12 (as stated, refuted): a device failure during the read makes `openBMP`
throw at the read stage of a fresh instance with the size and the buffer already
overwritten; and on a loaded instance an empty file makes it throw with the size
overwritten by 0 while the old buffer stays. -/
theorem openBMP_failure_leaves_state :
    BMPReader.openBMP failingDevice (BMPReader.new (String.toList "a.bmp"))
      = Outcome.threw (String.toList "InvalidReadFile: a.bmp")
          { BMPReader.new (String.toList "a.bmp") with
            _dataSize := 58, _data := some (List.replicate 58 0) } ∧
    (BMPReader.new (String.toList "a.bmp"))._dataSize = 0 ∧
    (BMPReader.new (String.toList "a.bmp"))._data = none ∧
    BMPReader.openBMP (oneFile []) whitePixelLoaded
      = Outcome.threw (String.toList "InvalidReadFile: a.bmp")
          { whitePixelLoaded with _dataSize := 0 } ∧
    whitePixelLoaded._dataSize = 58 := by
  decide

/-- C12 (amended): whenever `openBMP` throws, the two headers are what they were
before the call; when it throws at the open stage the whole state is unchanged;
when it throws after the file was opened (read stage), the stream is closed
again, the size holds the size of the file, and the buffer is unchanged for an
empty file and otherwise replaced by the new buffer. -/
theorem openBMP_throw_state (fs : FileSystem) (r s : BMPReader.State) (msg : List Char)
    (h : BMPReader.openBMP fs r = Outcome.threw msg s) :
    s.bmpHeader = r.bmpHeader ∧ s.bmpInfoHeader = r.bmpInfoHeader ∧
    s._filename = r._filename ∧ s._extension = r._extension ∧
    ((BinaryFileManager.openFile fs r.toState).1 = false → s = r) ∧
    ∀ f, BinaryFileManager.openFile fs r.toState = (true, { r.toState with _file := some f }) →
      s._file = none ∧ s._dataSize = f.bytes.length ∧
      (f.bytes.length = 0 → s._data = r._data) ∧
      (f.bytes.length ≠ 0 → s._data = some (List.replicate f.bytes.length 0)) := by
  cases ho : (BinaryFileManager.openFile fs r.toState).1 with
  | false =>
    rw [openBMP_open_failed fs r ho] at h
    simp only [Outcome.threw.injEq] at h
    obtain ⟨_, hs⟩ := h
    subst hs
    refine ⟨rfl, rfl, rfl, rfl, fun _ => rfl, ?_⟩
    intro f hf
    rw [hf] at ho
    simp at ho
  | true =>
    obtain ⟨f, hnone, hext, hfs, hopen⟩ := openFile_true fs r.toState ho
    rw [openBMP_opened fs r f hopen] at h
    have hinj : ∀ g, BinaryFileManager.openFile fs r.toState
        = (true, { r.toState with _file := some g }) → g = f := by
      intro g hg
      rw [hopen] at hg
      simp only [Prod.mk.injEq, BinaryFileManager.State.mk.injEq, Option.some.injEq,
        true_and] at hg
      exact hg.symm
    split at h
    · next h0 =>
      simp only [Outcome.threw.injEq] at h
      obtain ⟨_, hs⟩ := h
      subst hs
      refine ⟨rfl, rfl, rfl, rfl, fun hc => by simp at hc, ?_⟩
      intro g hg
      rw [hinj g hg]
      exact ⟨rfl, h0.symm, fun _ => rfl, fun hc => absurd h0 hc⟩
    · split at h
      · cases h
      · split at h
        · next h0 _ _ =>
          simp only [Outcome.threw.injEq] at h
          obtain ⟨_, hs⟩ := h
          subst hs
          refine ⟨rfl, rfl, rfl, rfl, fun hc => by simp at hc, ?_⟩
          intro g hg
          rw [hinj g hg]
          exact ⟨rfl, rfl, fun hc => absurd hc h0, fun _ => rfl⟩
        · exact absurd h (copyHeaders_not_threw _ msg s)

/-- C12 (amended) on a fresh instance and a failing device. -/
theorem openBMP_throw_state_witness :
    (loaded (String.toList "a.bmp") (List.replicate 58 0) ⟨0, 0, 0, 0, 0⟩
        ⟨0, 0, 0, 0, 0, 0, 0, 0, 0, 0, 0⟩).bmpHeader
      = (BMPReader.new (String.toList "a.bmp")).bmpHeader ∧
    (loaded (String.toList "a.bmp") (List.replicate 58 0) ⟨0, 0, 0, 0, 0⟩
        ⟨0, 0, 0, 0, 0, 0, 0, 0, 0, 0, 0⟩).bmpInfoHeader
      = (BMPReader.new (String.toList "a.bmp")).bmpInfoHeader ∧
    (loaded (String.toList "a.bmp") (List.replicate 58 0) ⟨0, 0, 0, 0, 0⟩
        ⟨0, 0, 0, 0, 0, 0, 0, 0, 0, 0, 0⟩)._filename
      = (BMPReader.new (String.toList "a.bmp"))._filename ∧
    (loaded (String.toList "a.bmp") (List.replicate 58 0) ⟨0, 0, 0, 0, 0⟩
        ⟨0, 0, 0, 0, 0, 0, 0, 0, 0, 0, 0⟩)._extension
      = (BMPReader.new (String.toList "a.bmp"))._extension ∧
    ((BinaryFileManager.openFile failingDevice
        (BMPReader.new (String.toList "a.bmp")).toState).1 = false →
      loaded (String.toList "a.bmp") (List.replicate 58 0) ⟨0, 0, 0, 0, 0⟩
        ⟨0, 0, 0, 0, 0, 0, 0, 0, 0, 0, 0⟩ = BMPReader.new (String.toList "a.bmp")) ∧
    ∀ f, BinaryFileManager.openFile failingDevice (BMPReader.new (String.toList "a.bmp")).toState
        = (true, { (BMPReader.new (String.toList "a.bmp")).toState with _file := some f }) →
      (loaded (String.toList "a.bmp") (List.replicate 58 0) ⟨0, 0, 0, 0, 0⟩
        ⟨0, 0, 0, 0, 0, 0, 0, 0, 0, 0, 0⟩)._file = none ∧
      (loaded (String.toList "a.bmp") (List.replicate 58 0) ⟨0, 0, 0, 0, 0⟩
        ⟨0, 0, 0, 0, 0, 0, 0, 0, 0, 0, 0⟩)._dataSize = f.bytes.length ∧
      (f.bytes.length = 0 →
        (loaded (String.toList "a.bmp") (List.replicate 58 0) ⟨0, 0, 0, 0, 0⟩
          ⟨0, 0, 0, 0, 0, 0, 0, 0, 0, 0, 0⟩)._data
          = (BMPReader.new (String.toList "a.bmp"))._data) ∧
      (f.bytes.length ≠ 0 →
        (loaded (String.toList "a.bmp") (List.replicate 58 0) ⟨0, 0, 0, 0, 0⟩
          ⟨0, 0, 0, 0, 0, 0, 0, 0, 0, 0, 0⟩)._data
          = some (List.replicate f.bytes.length 0)) :=
  openBMP_throw_state failingDevice (BMPReader.new (String.toList "a.bmp"))
    (loaded (String.toList "a.bmp") (List.replicate 58 0) ⟨0, 0, 0, 0, 0⟩
      ⟨0, 0, 0, 0, 0, 0, 0, 0, 0, 0, 0⟩)
    (String.toList "InvalidReadFile: a.bmp") (by decide)

theorem closeFile_eq (s : BinaryFileManager.State) :
    BinaryFileManager.closeFile s = (s._file.isSome, { s with _file := none }) := by
  unfold BinaryFileManager.closeFile
  cases hf : s._file with
  | none =>
    obtain ⟨a, b, c⟩ := s
    simp only at hf
    subst hf
    rfl
  | some f => rfl

/-- C13: `closeFile` returns true exactly when the file was open and leaves the
stream closed; a second call, a call on a stream that was never opened, and a call
after a failed open return false and change nothing; `closeBMP` closes the stream
and is idempotent. -/
theorem closeFile_idempotent (fs : FileSystem) (s : BinaryFileManager.State)
    (r : BMPReader.State) :
    (BinaryFileManager.closeFile s).1 = s._file.isSome ∧
    (BinaryFileManager.closeFile s).2 = { s with _file := none } ∧
    BinaryFileManager.closeFile (BinaryFileManager.closeFile s).2
      = (false, (BinaryFileManager.closeFile s).2) ∧
    BinaryFileManager.closeFile { s with _file := none } = (false, { s with _file := none }) ∧
    ((BinaryFileManager.openFile fs { s with _file := none }).1 = true ∨
      BinaryFileManager.closeFile (BinaryFileManager.openFile fs { s with _file := none }).2
        = (false, { s with _file := none })) ∧
    (BMPReader.closeBMP r)._file = none ∧
    (BMPReader.closeBMP r)._data = r._data ∧
    (BMPReader.closeBMP r).bmpHeader = r.bmpHeader ∧
    (BMPReader.closeBMP r).bmpInfoHeader = r.bmpInfoHeader ∧
    BMPReader.closeBMP (BMPReader.closeBMP r) = BMPReader.closeBMP r := by
  refine ⟨?_, ?_, ?_, rfl, ?_, ?_, rfl, rfl, rfl, ?_⟩
  · rw [closeFile_eq]
  · rw [closeFile_eq]
  · rw [closeFile_eq s]
    rfl
  · cases ho : (BinaryFileManager.openFile fs { s with _file := none }).1 with
    | true => left; rfl
    | false =>
      right
      rw [openFile_false fs _ ho]
      rfl
  · unfold BMPReader.closeBMP
    rw [closeFile_eq]
  · unfold BMPReader.closeBMP
    rw [closeFile_eq, closeFile_eq]

/-- C14: starting with the stream closed, after `openBMP` returns or throws, at
whatever stage, the stream is closed. -/
theorem openBMP_releases_file (fs : FileSystem) (r s : BMPReader.State) (msg : List Char)
    (hclosed : r._file = none)
    (h : BMPReader.openBMP fs r = Outcome.returned s ∨
         BMPReader.openBMP fs r = Outcome.threw msg s) :
    s._file = none := by
  rcases h with h | h
  · obtain ⟨f, _, _, _, _, _, _, _, hs⟩ := openBMP_returned_state fs r s h
    rw [hs]
  · cases ho : (BinaryFileManager.openFile fs r.toState).1 with
    | false =>
      rw [openBMP_open_failed fs r ho] at h
      simp only [Outcome.threw.injEq] at h
      rw [← h.2]
      exact hclosed
    | true =>
      obtain ⟨f, _, _, _, hopen⟩ := openFile_true fs r.toState ho
      rw [openBMP_opened fs r f hopen] at h
      split at h
      · simp only [Outcome.threw.injEq] at h
        rw [← h.2]
      · split at h
        · cases h
        · split at h
          · simp only [Outcome.threw.injEq] at h
            rw [← h.2]
          · exact absurd h (copyHeaders_not_threw _ msg s)

/-- C14 on the read-stage throw of a fresh instance on a failing device. -/
theorem openBMP_releases_file_witness :
    (loaded (String.toList "a.bmp") (List.replicate 58 0) ⟨0, 0, 0, 0, 0⟩
        ⟨0, 0, 0, 0, 0, 0, 0, 0, 0, 0, 0⟩)._file = none :=
  openBMP_releases_file failingDevice (BMPReader.new (String.toList "a.bmp"))
    (loaded (String.toList "a.bmp") (List.replicate 58 0) ⟨0, 0, 0, 0, 0⟩
      ⟨0, 0, 0, 0, 0, 0, 0, 0, 0, 0, 0⟩)
    (String.toList "InvalidReadFile: a.bmp") rfl (Or.inr (by decide))

/-- C18: for a path with extension `bmp` that opens on an empty file, `readFile`
returns false and leaves the buffer alone, and `openBMP` on a fresh instance
throws `InvalidReadFile` with the stream closed, the buffer null, the size 0 and
the headers still zero. -/
theorem openBMP_empty_file (fs : FileSystem) (filename : List Char) (f : OsFile)
    (hext : BinaryFileManager.getExtension filename = String.toList "bmp")
    (hfs : fs filename = some f) (hempty : f.bytes = []) :
    BinaryFileManager.openFile fs (BMPReader.new filename).toState
      = (true, { (BMPReader.new filename).toState with _file := some f }) ∧
    BinaryFileManager.readFile { (BMPReader.new filename).toState with _file := some f }
      f.bytes.length none = some (false, none) ∧
    BMPReader.openBMP fs (BMPReader.new filename)
      = Outcome.threw (String.toList "InvalidReadFile: " ++ filename)
          (BMPReader.new filename) ∧
    (BMPReader.new filename)._file = none ∧
    (BMPReader.new filename)._data = none ∧
    (BMPReader.new filename).bmpHeader = ⟨0, 0, 0, 0, 0⟩ ∧
    (BMPReader.new filename).bmpInfoHeader = ⟨0, 0, 0, 0, 0, 0, 0, 0, 0, 0, 0⟩ := by
  have hopen : BinaryFileManager.openFile fs (BMPReader.new filename).toState
      = (true, { (BMPReader.new filename).toState with _file := some f }) := by
    unfold BinaryFileManager.openFile
    have hne : ((BMPReader.new filename).toState._file.isSome ||
        (BMPReader.new filename).toState._extension
          != BinaryFileManager.getExtension (BMPReader.new filename).toState._filename)
        = false := by
      show (false || (String.toList "bmp" != BinaryFileManager.getExtension filename)) = false
      rw [hext]
      decide
    rw [hne]
    show (match fs filename with
      | some f => (true, { (BMPReader.new filename).toState with _file := some f })
      | none => (false, (BMPReader.new filename).toState)) = _
    rw [hfs]
  have hlen : f.bytes.length = 0 := by rw [hempty]; rfl
  refine ⟨hopen, ?_, ?_, rfl, rfl, rfl, rfl⟩
  · unfold BinaryFileManager.readFile
    simp only [hlen, if_true]
  · rw [openBMP_opened fs _ f hopen, if_pos hlen]
    rfl

/-- C18 on `a.bmp` in a file system where every name opens on an empty file. -/
theorem openBMP_empty_file_witness :
    BinaryFileManager.openFile (oneFile []) (BMPReader.new (String.toList "a.bmp")).toState
      = (true, { (BMPReader.new (String.toList "a.bmp")).toState with
                 _file := some ⟨[], false⟩ }) ∧
    BinaryFileManager.readFile
      { (BMPReader.new (String.toList "a.bmp")).toState with _file := some ⟨[], false⟩ }
      (OsFile.mk [] false).bytes.length none = some (false, none) ∧
    BMPReader.openBMP (oneFile []) (BMPReader.new (String.toList "a.bmp"))
      = Outcome.threw (String.toList "InvalidReadFile: " ++ String.toList "a.bmp")
          (BMPReader.new (String.toList "a.bmp")) ∧
    (BMPReader.new (String.toList "a.bmp"))._file = none ∧
    (BMPReader.new (String.toList "a.bmp"))._data = none ∧
    (BMPReader.new (String.toList "a.bmp")).bmpHeader = ⟨0, 0, 0, 0, 0⟩ ∧
    (BMPReader.new (String.toList "a.bmp")).bmpInfoHeader
      = ⟨0, 0, 0, 0, 0, 0, 0, 0, 0, 0, 0⟩ :=
  openBMP_empty_file (oneFile []) (String.toList "a.bmp") ⟨[], false⟩ (by decide) rfl rfl

end Lifecycle

section IndexSafety

theorem writePixel_shape (pv : List (List Nat)) (H L ρ col v : Nat)
    (hs : HasShape pv H L) (hρ : ρ < H) (hcol : col < L) :
    ∃ pv1, BMPReader.writePixel pv (Int.ofNat ρ) col v = some pv1 ∧ HasShape pv1 H L := by
  obtain ⟨hlen, hrows⟩ := hs
  obtain ⟨cells, hc, hcl⟩ := hrows ρ hρ
  refine ⟨_, writePixel_ofNat pv cells ρ col v hc (by omega), ?_, ?_⟩
  · rw [List.length_set, hlen]
  · intro i hi
    rw [List.getElem?_set]
    by_cases he : ρ = i
    · rw [if_pos he, if_pos (by omega)]
      exact ⟨_, rfl, by rw [List.length_set, hcl]⟩
    · rw [if_neg he]
      exact hrows i hi

/-- One pass of the inner parse loop stays inside the buffer and inside the row
when the three cells and the three bytes exist. -/
theorem fillPixel_safe (st : BMPReader.DisplayStatics) (r : BMPReader.State) (d : List Nat)
    (y x ρ H L : Nat) (pv : List (List Nat))
    (hd : r._data = some d) (hrow : BMPReader.offsetRow st y = Int.ofNat ρ) (hρ : ρ < H)
    (hs : HasShape pv H L) (hx : x * st.bytesPerPixel + 2 < L) (hL : L ≤ 4294967296)
    (hfit : r.bmpHeader.bfOffBits + y * st.rowPadded + x * st.bytesPerPixel + 2 < d.length)
    (hsmall : d.length ≤ 2147483648) :
    ∃ pv1, BMPReader.fillPixel st r y x pv = some pv1 ∧ HasShape pv1 H L := by
  have hp : BMPReader.offsetPixel st r.bmpHeader.bfOffBits y x
      = Int.ofNat (r.bmpHeader.bfOffBits + y * st.rowPadded + x * st.bytesPerPixel) := by
    unfold BMPReader.offsetPixel
    rw [Nat.mod_eq_of_lt (by omega)]
    apply toI32_of_range <;> simp only [Int.ofNat_eq_coe] <;> omega
  have hp1 : toI32 (Int.ofNat (r.bmpHeader.bfOffBits + y * st.rowPadded
        + x * st.bytesPerPixel) + 1)
      = Int.ofNat (r.bmpHeader.bfOffBits + y * st.rowPadded + x * st.bytesPerPixel + 1) := by
    rw [toI32_of_range] <;> simp only [Int.ofNat_eq_coe] <;> omega
  have hp2 : toI32 (Int.ofNat (r.bmpHeader.bfOffBits + y * st.rowPadded
        + x * st.bytesPerPixel) + 2)
      = Int.ofNat (r.bmpHeader.bfOffBits + y * st.rowPadded + x * st.bytesPerPixel + 2) := by
    rw [toI32_of_range] <;> simp only [Int.ofNat_eq_coe] <;> omega
  unfold BMPReader.fillPixel
  simp only [hp, hp1, hp2, hrow]
  rw [readData_ofNat r d _ hd (by omega), readData_ofNat r d _ hd (by omega),
    readData_ofNat r d _ hd (by omega)]
  simp only [Option.some_bind]
  rw [Nat.mod_eq_of_lt (by omega), Nat.mod_eq_of_lt (by omega), Nat.mod_eq_of_lt (by omega)]
  obtain ⟨pv1, h1, hs1⟩ := writePixel_shape pv H L ρ (x * st.bytesPerPixel)
    (byteAt d (r.bmpHeader.bfOffBits + y * st.rowPadded + x * st.bytesPerPixel)) hs hρ
    (by omega)
  obtain ⟨pv2, h2, hs2⟩ := writePixel_shape pv1 H L ρ (x * st.bytesPerPixel + 1)
    (byteAt d (r.bmpHeader.bfOffBits + y * st.rowPadded + x * st.bytesPerPixel + 1)) hs1 hρ
    (by omega)
  obtain ⟨pv3, h3, hs3⟩ := writePixel_shape pv2 H L ρ (x * st.bytesPerPixel + 2)
    (byteAt d (r.bmpHeader.bfOffBits + y * st.rowPadded + x * st.bytesPerPixel + 2)) hs2 hρ
    (by omega)
  rw [h1, Option.some_bind, h2, Option.some_bind, h3]
  exact ⟨pv3, rfl, hs3⟩

theorem column_bound (W b x : Nat) (hb : 3 ≤ b) (hx : x < W) : x * b + 2 < W * b := by
  have h1 : (x + 1) * b ≤ W * b := Nat.mul_le_mul_right b hx
  rw [Nat.succ_mul] at h1
  omega

/-- The inner parse loop, for `n` columns, keeps the shape of `pixelsVector`. -/
theorem fillColumns_safe (st : BMPReader.DisplayStatics) (r : BMPReader.State) (d : List Nat)
    (y ρ H : Nat) (hd : r._data = some d) (hb : 3 ≤ st.bytesPerPixel)
    (hrow : BMPReader.offsetRow st y = Int.ofNat ρ) (hρ : ρ < H)
    (hfit : r.bmpHeader.bfOffBits + y * st.rowPadded + st.width * st.bytesPerPixel ≤ d.length)
    (hsmall : d.length ≤ 2147483648) (n : Nat) (hn : n ≤ st.width) (pv : List (List Nat))
    (hs : HasShape pv H (st.width * st.bytesPerPixel)) :
    ∃ pv1, forLoop n (fun x pv0 => BMPReader.fillPixel st r y x pv0) pv = some pv1 ∧
      HasShape pv1 H (st.width * st.bytesPerPixel) := by
  induction n with
  | zero => exact ⟨pv, rfl, hs⟩
  | succ n ih =>
    obtain ⟨pv1, h1, hs1⟩ := ih (by omega)
    have hcol := column_bound st.width st.bytesPerPixel n hb (by omega)
    obtain ⟨pv2, h2, hs2⟩ := fillPixel_safe st r d y n ρ H _ pv1 hd hrow hρ hs1 hcol
      (by omega) (by omega) hsmall
    rw [forLoop_succ, h1, Option.some_bind]
    exact ⟨pv2, h2, hs2⟩

/-- The outer parse loop, for `k` rows, keeps the shape of `pixelsVector`. -/
theorem fillRows_safe (st : BMPReader.DisplayStatics) (r : BMPReader.State) (d : List Nat)
    (hd : r._data = some d) (hb : 3 ≤ st.bytesPerPixel)
    (hH : st.heightAbs ≤ 2147483648) (hsmall : d.length ≤ 2147483648)
    (hfit : ∀ y, y < st.heightAbs →
      r.bmpHeader.bfOffBits + y * st.rowPadded + st.width * st.bytesPerPixel ≤ d.length)
    (k : Nat) (hk : k ≤ st.heightAbs) (pv : List (List Nat))
    (hs : HasShape pv st.heightAbs (st.width * st.bytesPerPixel)) :
    ∃ pv1, forLoop k
        (fun y pv0 => forLoop st.width (fun x pv2 => BMPReader.fillPixel st r y x pv2) pv0) pv
        = some pv1 ∧
      HasShape pv1 st.heightAbs (st.width * st.bytesPerPixel) := by
  induction k with
  | zero => exact ⟨pv, rfl, hs⟩
  | succ k ih =>
    obtain ⟨pv1, h1, hs1⟩ := ih (by omega)
    have hk' : k < st.heightAbs := by omega
    obtain ⟨pv2, h2, hs2⟩ := fillColumns_safe st r d k (rowSource st k) st.heightAbs hd hb
      (offsetRow_eq st k hH hk') (rowSource_lt st k hk') (hfit k hk') hsmall st.width
      (Nat.le_refl _) pv1 hs1
    rw [forLoop_succ, h1, Option.some_bind]
    exact ⟨pv2, h2, hs2⟩

theorem showPixel_safe (st : BMPReader.DisplayStatics) (pv : List (List Nat)) (H L i j : Nat)
    (out : List Char) (hs : HasShape pv H L) (hi : i < H)
    (hj : j * st.bytesPerPixel + 2 < L) (hL : L ≤ 4294967296) :
    ∃ out1, BMPReader.showPixel st pv i j out = some out1 := by
  obtain ⟨cells, hc, hcl⟩ := hs.2 i hi
  unfold BMPReader.showPixel
  rw [Nat.mod_eq_of_lt (by omega), Nat.mod_eq_of_lt (by omega), Nat.mod_eq_of_lt (by omega)]
  have h0 : BMPReader.readVector pv i = some cells := hc
  rw [h0, Option.some_bind, readVector_eq_byteAt cells _ (by omega), Option.some_bind,
    readVector_eq_byteAt cells _ (by omega), Option.some_bind,
    readVector_eq_byteAt cells _ (by omega), Option.some_bind]
  exact ⟨_, rfl⟩

theorem showColumns_safe (st : BMPReader.DisplayStatics) (pv : List (List Nat)) (H i : Nat)
    (hb : 3 ≤ st.bytesPerPixel) (hs : HasShape pv H (st.width * st.bytesPerPixel))
    (hi : i < H) (hL : st.width * st.bytesPerPixel ≤ 4294967296) (n : Nat)
    (hn : n ≤ st.width) (out : List Char) :
    ∃ out1, forLoop n (fun j out0 => BMPReader.showPixel st pv i j out0) out = some out1 := by
  induction n with
  | zero => exact ⟨out, rfl⟩
  | succ n ih =>
    obtain ⟨out1, h1⟩ := ih (by omega)
    obtain ⟨out2, h2⟩ := showPixel_safe st pv H _ i n out1 hs hi
      (column_bound st.width st.bytesPerPixel n hb (by omega)) hL
    rw [forLoop_succ, h1, Option.some_bind]
    exact ⟨out2, h2⟩

theorem showRows_safe (st : BMPReader.DisplayStatics) (pv : List (List Nat))
    (hb : 3 ≤ st.bytesPerPixel)
    (hs : HasShape pv st.heightAbs (st.width * st.bytesPerPixel))
    (hL : st.width * st.bytesPerPixel ≤ 4294967296) (k : Nat) (hk : k ≤ st.heightAbs) :
    ∃ out1, forLoop k
        (fun i out =>
          (forLoop st.width (fun j out0 => BMPReader.showPixel st pv i j out0) out).map
            fun out2 => out2 ++ [Char.ofNat 10])
        [] = some out1 := by
  induction k with
  | zero => exact ⟨[], rfl⟩
  | succ k ih =>
    obtain ⟨out1, h1⟩ := ih (by omega)
    obtain ⟨out2, h2⟩ := showColumns_safe st pv st.heightAbs k hb hs (by omega) hL st.width
      (Nat.le_refl _) out1
    rw [forLoop_succ, h1, Option.some_bind, h2]
    exact ⟨_, rfl⟩

/-- The body of `displayBMP` performs no access outside the buffer or outside a
row when a pixel has at least 3 bytes and every stored row lies inside a buffer
of at most `2^31` bytes. -/
theorem displayWith_safe (st : BMPReader.DisplayStatics) (r : BMPReader.State) (d : List Nat)
    (hd : r._data = some d) (hb : 3 ≤ st.bytesPerPixel)
    (hH : st.heightAbs ≤ 2147483648) (hsmall : d.length ≤ 2147483648)
    (hfit : ∀ y, y < st.heightAbs →
      r.bmpHeader.bfOffBits + y * st.rowPadded + st.width * st.bytesPerPixel ≤ d.length) :
    ∃ out, BMPReader.displayWith st r = Outcome.returned (some st, out) := by
  rcases Nat.eq_zero_or_pos st.heightAbs with h0 | hpos
  · exact ⟨_, (displayWith_no_rows st r d h0).2⟩
  have hL : st.width * st.bytesPerPixel ≤ 2147483648 := by
    have := hfit 0 hpos
    omega
  have hinit : HasShape
      (List.replicate st.heightAbs
        (List.replicate ((st.width * st.bytesPerPixel) % 4294967296) 0))
      st.heightAbs (st.width * st.bytesPerPixel) := by
    rw [Nat.mod_eq_of_lt (by omega)]
    refine ⟨List.length_replicate _ _, ?_⟩
    intro i hi
    exact ⟨_, List.getElem?_replicate_of_lt hi, List.length_replicate _ _⟩
  obtain ⟨pv1, h1, hs1⟩ := fillRows_safe st r d hd hb hH hsmall hfit st.heightAbs
    (Nat.le_refl _) _ hinit
  obtain ⟨out1, h2⟩ := showRows_safe st pv1 hb hs1 (by omega) st.heightAbs (Nat.le_refl _)
  have hfill : BMPReader.fillPixels st r = some pv1 := h1
  have hshow : BMPReader.showPixels st pv1 = some (out1 ++ [Char.ofNat 10]) := by
    unfold BMPReader.showPixels
    rw [h2]
    rfl
  unfold BMPReader.displayWith
  rw [hfill, Option.some_bind, hshow]
  exact ⟨_, rfl⟩

theorem initStatics_fields_any (ih : BITMAPINFOHEADER) (hword : ih.biBitCount < 65536)
    (hlo : -2147483648 ≤ ih.biHeight) (hhi : ih.biHeight < 2147483648) :
    (BMPReader.initStatics ih).height = ih.biHeight ∧
    (BMPReader.initStatics ih).heightAbs = ih.biHeight.natAbs ∧
    (BMPReader.initStatics ih).width = toU32 ih.biWidth ∧
    (BMPReader.initStatics ih).bytesPerPixel = ih.biBitCount / 8 ∧
    (BMPReader.initStatics ih).rowPadded
      = BMPReader.rowPaddedInit ih.biWidth (ih.biBitCount / 8) := by
  have hbpp : toU32 (Int.ofNat (ih.biBitCount / 8)) = ih.biBitCount / 8 :=
    toU32_ofNat _ (by omega)
  refine ⟨?_, ?_, ?_, ?_, ?_⟩
  · simp only [BMPReader.initStatics]
    exact toI32_of_range _ hlo hhi
  · simp only [BMPReader.initStatics]
    exact heightAbs_eq _ hlo hhi
  · simp only [BMPReader.initStatics]
  · simp only [BMPReader.initStatics]
    exact hbpp
  · simp only [BMPReader.initStatics]
    rw [hbpp]

theorem strideOf_ge_any (w b : Nat) : w * b ≤ strideOf w b := by
  unfold strideOf
  omega

/-- C17: with at least 3 bytes per pixel, a width that is not negative, a height
other than the minimum 32-bit integer and the pixel array
`bfOffBits + abs(height) * stride` inside a buffer of at most `2^31` bytes, the
first `displayBMP` of the process returns without any access outside the buffer
or outside a row, and every index `offsetPixel + k` and `x * bytesPerPixel + k`
(`k < 3`) is in range; on the 1x1 image of 8 bits per pixel, the write at
`x * bytesPerPixel + 2` is outside the row of length 1 and `displayBMP` runs into
an access outside the row. -/
theorem displayBMP_index_safety (r : BMPReader.State) (d : List Nat)
    (hd : r._data = some d) (hbits : 24 ≤ r.bmpInfoHeader.biBitCount)
    (hword : r.bmpInfoHeader.biBitCount < 65536) (hw : 0 ≤ r.bmpInfoHeader.biWidth)
    (hlo : -2147483648 < r.bmpInfoHeader.biHeight) (hhi : r.bmpInfoHeader.biHeight < 2147483648)
    (hfit : r.bmpHeader.bfOffBits + r.bmpInfoHeader.biHeight.natAbs
      * strideOf r.bmpInfoHeader.biWidth.toNat (r.bmpInfoHeader.biBitCount / 8) ≤ d.length)
    (hsmall : d.length ≤ 2147483648) :
    (∃ out, BMPReader.displayBMP none r
      = Outcome.returned (some (BMPReader.initStatics r.bmpInfoHeader), out)) ∧
    (∀ y x k, y < r.bmpInfoHeader.biHeight.natAbs → x < r.bmpInfoHeader.biWidth.toNat → k < 3 →
      BMPReader.offsetPixel (BMPReader.initStatics r.bmpInfoHeader) r.bmpHeader.bfOffBits y x
        = Int.ofNat (r.bmpHeader.bfOffBits
          + y * strideOf r.bmpInfoHeader.biWidth.toNat (r.bmpInfoHeader.biBitCount / 8)
          + x * (r.bmpInfoHeader.biBitCount / 8)) ∧
      r.bmpHeader.bfOffBits
        + y * strideOf r.bmpInfoHeader.biWidth.toNat (r.bmpInfoHeader.biBitCount / 8)
        + x * (r.bmpInfoHeader.biBitCount / 8) + k < d.length ∧
      x * (r.bmpInfoHeader.biBitCount / 8) + k
        < r.bmpInfoHeader.biWidth.toNat * (r.bmpInfoHeader.biBitCount / 8)) ∧
    BMPReader.openBMP (oneFile eightBitFile) (BMPReader.new (String.toList "a.bmp"))
      = Outcome.returned eightBitLoaded ∧
    (BMPReader.initStatics eightBitLoaded.bmpInfoHeader).bytesPerPixel = 1 ∧
    (BMPReader.initStatics eightBitLoaded.bmpInfoHeader).width = 1 ∧
    BMPReader.writePixel [[7]] 0 (0 * 1 + 2) 0 = none ∧
    BMPReader.displayBMP none eightBitLoaded = Outcome.undefined := by
  refine ⟨?_, ?_, by decide, by decide, by decide, by decide, by decide⟩
  all_goals
    obtain ⟨hht, habs, hwid, hbpp, hrow⟩ :=
      initStatics_fields_any r.bmpInfoHeader hword (by omega) hhi
    have hb3 : 3 ≤ r.bmpInfoHeader.biBitCount / 8 := by omega
    have hge := strideOf_ge_any r.bmpInfoHeader.biWidth.toNat (r.bmpInfoHeader.biBitCount / 8)
    have hrows : ∀ y, y < r.bmpInfoHeader.biHeight.natAbs →
        y * strideOf r.bmpInfoHeader.biWidth.toNat (r.bmpInfoHeader.biBitCount / 8)
          + strideOf r.bmpInfoHeader.biWidth.toNat (r.bmpInfoHeader.biBitCount / 8)
          ≤ r.bmpInfoHeader.biHeight.natAbs
            * strideOf r.bmpInfoHeader.biWidth.toNat (r.bmpInfoHeader.biBitCount / 8) := by
      intro y hy
      rw [← Nat.succ_mul]
      exact Nat.mul_le_mul_right _ hy
    have hgeo : r.bmpInfoHeader.biHeight.natAbs ≠ 0 →
        (BMPReader.initStatics r.bmpInfoHeader).width = r.bmpInfoHeader.biWidth.toNat ∧
        (BMPReader.initStatics r.bmpInfoHeader).rowPadded
          = strideOf r.bmpInfoHeader.biWidth.toNat (r.bmpInfoHeader.biBitCount / 8) := by
      intro hne
      have hone := hrows 0 (Nat.pos_of_ne_zero hne)
      have hle : r.bmpInfoHeader.biWidth.toNat
          ≤ r.bmpInfoHeader.biWidth.toNat * (r.bmpInfoHeader.biBitCount / 8) :=
        Nat.le_mul_of_pos_right _ (by omega)
      constructor
      · rw [hwid]
        exact toU32_of_lt _ hw (by omega)
      · rw [hrow, rowPaddedInit_eq _ _ hw (by omega)]
        rfl
  · have hH : (BMPReader.initStatics r.bmpInfoHeader).heightAbs ≤ 2147483648 := by
      rw [habs]; omega
    have hfit' : ∀ y, y < (BMPReader.initStatics r.bmpInfoHeader).heightAbs →
        r.bmpHeader.bfOffBits + y * (BMPReader.initStatics r.bmpInfoHeader).rowPadded
          + (BMPReader.initStatics r.bmpInfoHeader).width
            * (BMPReader.initStatics r.bmpInfoHeader).bytesPerPixel ≤ d.length := by
      intro y hy
      rw [habs] at hy
      obtain ⟨hw', hs'⟩ := hgeo (by omega)
      rw [hw', hs', hbpp]
      have := hrows y hy
      omega
    have hsafe := displayWith_safe (BMPReader.initStatics r.bmpInfoHeader) r d hd
      (by rw [hbpp]; exact hb3) hH hsmall hfit'
    unfold BMPReader.displayBMP
    rw [Option.getD_none]
    exact hsafe
  · intro y x k hy hx hk
    obtain ⟨hw', hs'⟩ := hgeo (by omega)
    have hcol := column_bound _ _ x hb3 hx
    have := hrows y hy
    refine ⟨?_, by omega, by omega⟩
    unfold BMPReader.offsetPixel
    rw [hs', hbpp, Nat.mod_eq_of_lt (by omega)]
    apply toI32_of_range <;> simp only [Int.ofNat_eq_coe] <;> omega

end IndexSafety

section Statics

/-- C17 on the bottom-up red and blue image. -/
theorem displayBMP_index_safety_witness :
    ∃ out, BMPReader.displayBMP none redBlueUp
      = Outcome.returned (some (BMPReader.initStatics redBlueUp.bmpInfoHeader), out) :=
  (displayBMP_index_safety redBlueUp (bmpFile 1 [2, 0, 0, 0] redThenBlue) rfl (by decide)
    (by decide) (by decide) (by decide) (by decide) (by decide) (by decide)).1

theorem displayWith_statics (st : BMPReader.DisplayStatics) (r : BMPReader.State)
    (st1 : Option BMPReader.DisplayStatics) (out : List Char)
    (h : BMPReader.displayWith st r = Outcome.returned (st1, out)) : st1 = some st := by
  unfold BMPReader.displayWith at h
  split at h
  · simp only [Outcome.returned.injEq, Prod.mk.injEq] at h
    exact h.1.symm
  · cases h

/-- C15: `displayBMP` is a `const` member that only reads the buffer and the
headers (the model hands it the state and gets back no state). When a call
returns, the statics are those the call started with, or those it initialised,
and a second call on the same instance returns the same text. -/
theorem displayBMP_repeatable (statics st1 : Option BMPReader.DisplayStatics)
    (r : BMPReader.State) (out : List Char)
    (h : BMPReader.displayBMP statics r = Outcome.returned (st1, out)) :
    BMPReader.displayBMP st1 r = Outcome.returned (st1, out) ∧
    st1 = some (statics.getD (BMPReader.initStatics r.bmpInfoHeader)) := by
  unfold BMPReader.displayBMP at h
  have hst := displayWith_statics _ r st1 out h
  refine ⟨?_, hst⟩
  unfold BMPReader.displayBMP
  rw [hst, Option.getD_some, ← hst]
  exact h

/-- C15 on the bottom-up red and blue image, first render of the process. -/
theorem displayBMP_repeatable_witness :
    BMPReader.displayBMP (some ⟨2, 2, 1, 3, 4⟩) redBlueUp
      = Outcome.returned (some ⟨2, 2, 1, 3, 4⟩,
          ['?', Char.ofNat 10, '?', Char.ofNat 10, Char.ofNat 10]) ∧
    some (⟨2, 2, 1, 3, 4⟩ : BMPReader.DisplayStatics)
      = some ((none : Option BMPReader.DisplayStatics).getD
          (BMPReader.initStatics redBlueUp.bmpInfoHeader)) :=
  displayBMP_repeatable none (some ⟨2, 2, 1, 3, 4⟩) redBlueUp
    ['?', Char.ofNat 10, '?', Char.ofNat 10, Char.ofNat 10] (by decide)

/-- C16 (the code at a failing input): after `displayBMP` has rendered the
one-pixel white image, rendering the 1x2 red and blue image in the same process
uses the height 1 of the first image and emits one row instead of two; rendered
first, the same image gives two rows. The other way round, the one-pixel image is
read with height 2, beyond the end of its buffer. -/
theorem displayBMP_stale_statics :
    BMPReader.displayBMP none whitePixelLoaded
      = Outcome.returned (some ⟨1, 1, 1, 3, 4⟩, ['.', Char.ofNat 10, Char.ofNat 10]) ∧
    BMPReader.displayBMP (some ⟨1, 1, 1, 3, 4⟩) redBlueUp
      = Outcome.returned (some ⟨1, 1, 1, 3, 4⟩, ['?', Char.ofNat 10, Char.ofNat 10]) ∧
    BMPReader.displayBMP none redBlueUp
      = Outcome.returned (some ⟨2, 2, 1, 3, 4⟩,
          ['?', Char.ofNat 10, '?', Char.ofNat 10, Char.ofNat 10]) ∧
    BMPReader.displayBMP (some ⟨2, 2, 1, 3, 4⟩) whitePixelLoaded = Outcome.undefined := by
  refine ⟨by decide, by decide, by decide, by decide⟩

/-- C19: absent overflow, `_getRowPadding` returns a number of padding bytes in
0..3 that completes `width * bytesPerPixel` to a multiple of 4, and the padded
length is the stride `((width * bytesPerPixel) + 3) / 4 * 4` of `displayBMP`. -/
theorem getRowPadding_completes_stride (width bytesPerPixel : Nat)
    (hov : width * bytesPerPixel + 3 < 4294967296) :
    BMPReader._getRowPadding width bytesPerPixel < 4 ∧
    4 ∣ width * bytesPerPixel + BMPReader._getRowPadding width bytesPerPixel ∧
    width * bytesPerPixel + BMPReader._getRowPadding width bytesPerPixel
      = BMPReader.rowPaddedInit (Int.ofNat width) bytesPerPixel ∧
    BMPReader.rowPaddedInit (Int.ofNat width) bytesPerPixel
      = (width * bytesPerPixel + 3) / 4 * 4 := by
  have hpad : BMPReader._getRowPadding width bytesPerPixel
      = (4 - width * bytesPerPixel % 4) % 4 := by
    unfold BMPReader._getRowPadding
    rw [Nat.mod_eq_of_lt (by omega : width * bytesPerPixel < 4294967296)]
    have h1 : toU32 (4 - Int.ofNat (width * bytesPerPixel % 4))
        = 4 - width * bytesPerPixel % 4 := by
      unfold toU32
      simp only [Int.ofNat_eq_coe]
      omega
    rw [h1]
    omega
  have hrow : BMPReader.rowPaddedInit (Int.ofNat width) bytesPerPixel
      = (width * bytesPerPixel + 3) / 4 * 4 := by
    rw [rowPaddedInit_eq (Int.ofNat width) bytesPerPixel (Int.ofNat_nonneg _)
      (by simpa using hov)]
    rfl
  rw [hpad, hrow]
  refine ⟨by omega, ?_, by omega, rfl⟩
  have : width * bytesPerPixel + (4 - width * bytesPerPixel % 4) % 4
      = 4 * ((width * bytesPerPixel + 3) / 4) := by omega
  rw [this]
  exact Nat.dvd_mul_right 4 _

/-- C19 at width 3 and 3 bytes per pixel: 3 padding bytes, stride 12. -/
theorem getRowPadding_completes_stride_witness :
    BMPReader._getRowPadding 3 3 < 4 ∧
    4 ∣ 3 * 3 + BMPReader._getRowPadding 3 3 ∧
    3 * 3 + BMPReader._getRowPadding 3 3 = BMPReader.rowPaddedInit (Int.ofNat 3) 3 ∧
    BMPReader.rowPaddedInit (Int.ofNat 3) 3 = (3 * 3 + 3) / 4 * 4 :=
  getRowPadding_completes_stride 3 3 (by decide)

end Statics
